import Mathlib

/-!
Verification development for the synthetic-SPY funding simulator
(`modules/strategy/synthetic_spy_sim.py`) and the carry-curve interpolator
(`pages/10_Synthetic_SPY_Strategy_Simulator.py`).

Modelling conventions:
* pandas float values are idealised as rationals (`ℚ`); a NaN cell is `none`;
* a `pd.Timestamp` is a civil date `(year, month, day)`, ordered through its
  serial day number; `(t2 - t1).days` is the difference of serial numbers;
* Python exceptions become an `Except SimError` result;
* `_daily_rate_from_annual` computes `(1+annual)**(1/365.25) - 1`, a
  transcendental function; the simulation is parametrised by an arbitrary
  `dailyRate : ℚ → ℚ` standing for it, since no verified property of the
  day loop depends on the numeric values it produces.  The metric `cagr`,
  whose formula is itself under verification, is embedded over `ℝ` with real
  exponentiation instead.
-/

namespace EquityDash

/-- A civil date (year, month, day): the embedding of `pd.Timestamp` at the
daily resolution the simulator uses. -/
structure Date where
  y : Int
  m : Int
  d : Int
deriving DecidableEq

/-- Serial day number of a civil date (days since 1970-01-01, standard
days-from-civil computation); used to order dates and to count elapsed days. -/
def Date.toDays (dt : Date) : Int :=
  let yy := if dt.m ≤ 2 then dt.y - 1 else dt.y
  let era := Int.fdiv yy 400
  let yoe := yy - era * 400
  let mp := dt.m + (if 2 < dt.m then -3 else 9)
  let doy := Int.fdiv (153 * mp + 2) 5 + dt.d - 1
  let doe := yoe * 365 + Int.fdiv yoe 4 - Int.fdiv yoe 100 + doy
  era * 146097 + doe - 719468

/-- Python's binary `max` on floats, written with an explicit comparison so
that the kernel can evaluate it on concrete rationals (it agrees with `max`,
see `qmax_eq_max`). -/
def qmax (a b : ℚ) : ℚ := if a ≤ b then b else a

/-- Python's binary `min` on floats, in kernel-evaluable form (agrees with
`min`, see `qmin_eq_min`). -/
def qmin (a b : ℚ) : ℚ := if a ≤ b then a else b

/-- One row of the input price DataFrame; `none` models a NaN cell. -/
structure PriceRow where
  date : Date
  close : Option ℚ
  adj : Option ℚ
deriving DecidableEq

/-- The input price DataFrame: which of the two relevant columns exist, and
the rows.  (`Close` may be absent, making `simulate_synthetic` raise;
`Adj Close` may be absent, in which case it is filled from `Close`.) -/
structure PriceFrame where
  hasClose : Bool
  hasAdj : Bool
  rows : List PriceRow
deriving DecidableEq

/-- A row survives `DataFrame.dropna()` iff no present column holds NaN. -/
def rowComplete (pf : PriceFrame) (r : PriceRow) : Bool :=
  (!pf.hasClose || r.close.isSome) && (!pf.hasAdj || r.adj.isSome)

/-- `prices.dropna()`. -/
def dropnaRows (pf : PriceFrame) : List PriceRow :=
  pf.rows.filter (rowComplete pf)

/-- Date order used by `sort_index()`. -/
def rowDateLe (a b : PriceRow) : Prop :=
  a.date.toDays ≤ b.date.toDays

instance : DecidableRel rowDateLe := fun a b =>
  inferInstanceAs (Decidable (a.date.toDays ≤ b.date.toDays))

instance : IsTotal PriceRow rowDateLe :=
  ⟨fun a b => le_total a.date.toDays b.date.toDays⟩

instance : IsTrans PriceRow rowDateLe :=
  ⟨fun _ _ _ hab hbc => le_trans hab hbc⟩

/-- `df.sort_index()`: rows reordered by ascending date. -/
def sortRows (rs : List PriceRow) : List PriceRow :=
  rs.insertionSort rowDateLe

/-- A cleaned row after `dropna().sort_index()` and the `Adj Close` fill:
date, Close, Adj Close. -/
structure CleanRow where
  date : Date
  close : ℚ
  adj : ℚ
deriving DecidableEq

/-- The cleaned frame `df` used by the day loop: drop NaN rows, sort by date,
default `Adj Close` to `Close` when the column is absent.  (`Option.getD 0`
is only reached on `some` cells: the `dropna` filter keeps a row only when its
present columns are non-NaN.) -/
def cleanRows (pf : PriceFrame) : List CleanRow :=
  (sortRows (dropnaRows pf)).map fun r =>
    { date := r.date
      close := r.close.getD 0
      adj := if pf.hasAdj then r.adj.getD 0 else r.close.getD 0 }

/-- `topup_mode` literal type. -/
inductive TopUpMode where
  | topup
  | liquidate
deriving DecidableEq

/-- Embedding of the `SimParams` dataclass (defaults included). -/
structure SimParams where
  initial_cash : ℚ := 30000
  contracts : Int := 1
  contract_multiplier : Int := 100
  margin_pct : ℚ := 1/4
  rf_rate_annual : ℚ := 9/200
  roll_months : Int := 6
  dividend_yield_drag_annual : ℚ := 3/250
  topup_mode : TopUpMode := .topup
  max_total_topup : Option ℚ := none
deriving DecidableEq

/-- Python exceptions `simulate_synthetic` can raise, in the order the source
can reach them. -/
inductive SimError where
  | valueErrorMissingClose
  | indexErrorEmpty
  | zeroDivisionError
  | keyError
  | typeErrorComplex
deriving DecidableEq

/-- Embeds `_should_roll`: calendar-month difference test.  The source writes
`now.year * 12 + now.year * 0 + now.month`; the `* 0` term is kept verbatim. -/
def shouldRoll (lastRoll now : Date) (rollMonths : Int) : Bool :=
  let a := lastRoll.y * 12 + lastRoll.m
  let b := now.y * 12 + now.y * 0 + now.m
  decide (rollMonths ≤ b - a)

/-- A dynamic risk-free rate series: (date, annual decimal rate) pairs. -/
abbrev RateSeries := List (Date × ℚ)

/-- `series.loc[dt]`-style exact-label lookup (first match, `none` = KeyError
or NaN depending on the call site). -/
def rateLookup (s : RateSeries) (dt : Date) : Option ℚ :=
  (s.find? (fun p => p.1 == dt)).map (·.2)

/-- `series.reindex(idx)`: the series' value at each index date, `none` when
the date is absent. -/
def reindexOn (s : RateSeries) (idx : List Date) : List (Option ℚ) :=
  idx.map (rateLookup s)

/-- Forward fill starting from a previous value. -/
def ffillFrom (prev : Option ℚ) : List (Option ℚ) → List (Option ℚ)
  | [] => []
  | v :: rest =>
    let v' := v.orElse (fun _ => prev)
    v' :: ffillFrom v' rest

/-- `Series.ffill()`. -/
def ffill (l : List (Option ℚ)) : List (Option ℚ) :=
  ffillFrom none l

/-- `Series.bfill()`: forward fill of the reversed series. -/
def bfill (l : List (Option ℚ)) : List (Option ℚ) :=
  (ffillFrom none l.reverse).reverse

/-- `rf_annual_series.loc[dt]` as recorded in each output row: a raw label
lookup in the supplied series, raising `KeyError` when the label is absent;
with no series supplied, the constant `rf_rate_annual`. -/
def rfAnnualAt (rfSeries : Option RateSeries) (p : SimParams) (dt : Date) :
    Except SimError ℚ :=
  match rfSeries with
  | some s =>
    match rateLookup s dt with
    | some v => Except.ok v
    | none => Except.error SimError.keyError
  | none => Except.ok p.rf_rate_annual

/-- The filled daily-rate series aligned to the price dates: the reindexed,
forward- then backward-filled supplied series passed through the daily-rate
conversion, or the constant fallback daily rate at every date. -/
def rfDailyList (p : SimParams) (rfSeries : Option RateSeries)
    (dailyRate : ℚ → ℚ) (idx : List Date) : List (Option ℚ) :=
  match rfSeries with
  | some s => (bfill (ffill (reindexOn s idx))).map (Option.map dailyRate)
  | none => idx.map fun _ => some (dailyRate p.rf_rate_annual)

/-- Running maximum with a carried peak (`Series.cummax` after the first
element). -/
def cummaxFrom (m : ℚ) : List ℚ → List ℚ
  | [] => []
  | x :: xs => qmax m x :: cummaxFrom (qmax m x) xs

/-- `Series.cummax`. -/
def cummax : List ℚ → List ℚ
  | [] => []
  | x :: xs => x :: cummaxFrom x xs

/-- A pandas float value: NaN, a signed infinity, or a finite value
(idealised as a rational; signed zeros are not distinguished). -/
inductive FloatV where
  | nan
  | negInf
  | posInf
  | fin (q : ℚ)
deriving DecidableEq

/-- Elementwise float division as pandas performs it: finite for a nonzero
denominator, NaN for `0/0`, and a signed infinity for a nonzero numerator
over zero (no exception is raised). -/
def divF (a b : ℚ) : FloatV :=
  if b = 0 then
    if a = 0 then FloatV.nan
    else if 0 < a then FloatV.posInf
    else FloatV.negInf
  else FloatV.fin (a / b)

/-- Float subtraction of 1: infinities and NaN absorb it. -/
def subOneF : FloatV → FloatV
  | FloatV.fin q => FloatV.fin (q - 1)
  | v => v

/-- One step of the NaN-skipping minimum (`Series.min()` with the default
`skipna=True`): NaN on either side is ignored, infinities compare below and
above every finite value. -/
def minCmb (acc v : FloatV) : FloatV :=
  match acc, v with
  | FloatV.nan, w => w
  | a, FloatV.nan => a
  | FloatV.negInf, _ => FloatV.negInf
  | _, FloatV.negInf => FloatV.negInf
  | FloatV.posInf, w => w
  | a, FloatV.posInf => a
  | FloatV.fin a, FloatV.fin b => FloatV.fin (qmin a b)

/-- `Series.min()`: NaN-skipping minimum; NaN when the series is empty or
holds no non-NaN value. -/
def minSkipNa (l : List FloatV) : FloatV :=
  l.foldl minCmb FloatV.nan

/-- The result is ≤ 0 in float terms: `-inf` or a non-positive finite value
(`NaN <= 0` is false for floats, and so is `+inf <= 0`). -/
def nonposF : FloatV → Bool
  | FloatV.negInf => true
  | FloatV.fin q => decide (q ≤ 0)
  | _ => false

/-- Embeds `max_drawdown`: `dd = equity / equity.cummax() - 1` with float
division semantics (a zero running maximum yields NaN or ±inf, not an
exception), result `dd.min()` with NaN skipping — NaN when the curve is
empty or every drawdown entry is NaN. -/
def max_drawdown (equity : List ℚ) : FloatV :=
  minSkipNa (List.zipWith (fun e pk => subOneF (divF e pk)) equity
    (cummax equity))

open Classical in
/-- Embeds `cagr` over a date-indexed equity curve.  The float `**` is real
exponentiation for a non-negative base; for a negative base `end/start`
(possible: the `start ≤ 0` guard does not bound `end`) Python's float `**`
with the non-integral exponent `1/years` returns a complex number and the
enclosing `float(...)` raises TypeError — see `cagr_exponent_not_integral`
for the non-integrality of the exponent. -/
noncomputable def cagr (equity : List (Date × ℚ)) : Except SimError ℝ :=
  if equity.length < 2 then Except.ok 0
  else
    match equity with
    | [] => Except.ok 0
    | f :: rest =>
      let lastP := rest.getLastD f
      let start : ℝ := ((f.2 : ℚ) : ℝ)
      let endv : ℝ := ((lastP.2 : ℚ) : ℝ)
      let days : Int := lastP.1.toDays - f.1.toDays
      let years : ℝ := if 0 < days then (days : ℝ) / (365.25 : ℝ) else 0
      if years ≤ 0 ∨ start ≤ 0 then Except.ok 0
      else if endv / start < 0 then Except.error SimError.typeErrorComplex
      else Except.ok ((endv / start) ^ ((1 : ℝ) / years) - 1)

/-- The Boolean image of `cagr`'s raising condition over the rational data
(`cagr_raises_error` and `cagr_ok_of_not_raises` tie the two): the guards
return 0 without touching the power, and the power raises exactly for a
negative base. -/
def cagrRaises (equity : List (Date × ℚ)) : Bool :=
  match equity with
  | [] => false
  | f :: rest =>
    if (f :: rest).length < 2 then false
    else
      let lastP := rest.getLastD f
      let days : Int := lastP.1.toDays - f.1.toDays
      if 0 < days then
        if f.2 ≤ 0 then false
        else decide (lastP.2 / f.2 < 0)
      else false

/-- The running simulation state carried between days: cash, cumulative
top-up, last roll date, entry price, and the peak single top-up.  The
`liquidated` flag is not carried: the loop breaks the day it is set, so it is
`False` whenever a day begins. -/
structure SimState where
  cash : ℚ
  totalTopup : ℚ
  lastRoll : Date
  entryPrice : ℚ
  peakSingleTopup : ℚ
deriving DecidableEq

/-- One output row of the result DataFrame. -/
structure ResultRow where
  date : Date
  spyClose : ℚ
  syntheticEquity : ℚ
  syntheticNotional : ℚ
  marginReq : ℚ
  freeCash : ℚ
  totalTopup : ℚ
  liquidated : Bool
  buyHoldEquity : ℚ
  rfAnnual : ℚ
deriving DecidableEq

/-- The date-indexed synthetic equity curve of the result frame
(`res["Synthetic_Equity"]`). -/
def syntheticCurve (rows : List ResultRow) : List (Date × ℚ) :=
  rows.map fun r => (r.date, r.syntheticEquity)

/-- The date-indexed buy-and-hold equity curve (`res["BuyHold_Equity"]`). -/
def buyHoldCurve (rows : List ResultRow) : List (Date × ℚ) :=
  rows.map fun r => (r.date, r.buyHoldEquity)

/-- The metrics block of `simulate_synthetic` as it affects the rows-level
contract: of all the metric computations only the two `cagr` calls can
raise (`max_drawdown`, column max, `.any()` and `.iloc` are total on the
nonempty result frame), and they are evaluated in dict-literal order —
synthetic curve first, then buy-and-hold.  A raising `cagr` (TypeError from
a negative-base float power) aborts the call, so no rows are returned; the
metric values themselves are not part of the modelled output. -/
def metricsGate (res : Except SimError (List ResultRow)) :
    Except SimError (List ResultRow) :=
  match res with
  | Except.error e => Except.error e
  | Except.ok rows =>
    if cagrRaises (syntheticCurve rows) then
      Except.error SimError.typeErrorComplex
    else if cagrRaises (buyHoldCurve rows) then
      Except.error SimError.typeErrorComplex
    else Except.ok rows

/-- The roll block of the day loop (`if i > 0 and _should_roll(...)`): on any
day after day 0 where `_should_roll` holds, realise P&L into cash and reset
the entry price and last roll date.  Returns the
`(cash, entry_price, last_roll)` triple after the block. -/
def applyRoll (p : SimParams) (isFirst : Bool) (st : SimState) (dt : Date)
    (px : ℚ) : ℚ × ℚ × Date :=
  if !isFirst && shouldRoll st.lastRoll dt p.roll_months then
    (st.cash + (px - st.entryPrice) * (p.contracts : ℚ) * (p.contract_multiplier : ℚ),
      px, dt)
  else
    (st.cash, st.entryPrice, st.lastRoll)

/-- One day of the loop body: given yesterday's state and the day's inputs,
produce the new state, the row the source records for the day, and whether
liquidation triggered this day.  `rfDaily` is the day's entry of the filled
daily-rate series (`none` is the float-NaN case; it can only arise when the
raw series also misses the date, in which case the caller's `KeyError` for
this same day discards every value computed here, so the `getD 0` placeholder
never reaches an `ok` result). -/
def stepDay (p : SimParams) (c mlt divDragDaily bhShares : ℚ) (isFirst : Bool)
    (st : SimState) (dt : Date) (px adj : ℚ) (rfDaily : Option ℚ) (rfa : ℚ) :
    SimState × ResultRow × Bool :=
  let rolled := applyRoll p isFirst st dt px
  let cash0 := rolled.1
  let entry := rolled.2.1
  let lastRoll := rolled.2.2
  let notional := px * c * mlt
  let marginReq := p.margin_pct * notional
  let pnl := (px - entry) * c * mlt
  let cash1 := cash0 - notional * divDragDaily
  let equity1 := cash1 + pnl
  let freeCash := qmax 0 (equity1 - marginReq)
  let cash2 := cash1 + freeCash * rfDaily.getD 0
  let equity2 := cash2 + pnl
  let shortfall := marginReq - equity2
  let afterBreach : ℚ × ℚ × ℚ × Bool :=
    if equity2 < marginReq then
      match p.topup_mode with
      | TopUpMode.topup =>
        let cashT := cash2 + shortfall
        let tt := st.totalTopup + shortfall
        let pk := qmax st.peakSingleTopup shortfall
        let liqT :=
          match p.max_total_topup with
          | some cap => decide (cap < tt)
          | none => false
        (cashT, tt, pk, liqT)
      | TopUpMode.liquidate => (cash2, st.totalTopup, st.peakSingleTopup, true)
    else (cash2, st.totalTopup, st.peakSingleTopup, false)
  let cash3 := afterBreach.1
  let totalTopup := afterBreach.2.1
  let peak := afterBreach.2.2.1
  let liq := afterBreach.2.2.2
  let st' : SimState :=
    { cash := cash3, totalTopup := totalTopup, lastRoll := lastRoll,
      entryPrice := entry, peakSingleTopup := peak }
  (st',
    if liq then
      { date := dt, spyClose := px, syntheticEquity := cash3,
        syntheticNotional := notional, marginReq := marginReq,
        freeCash := 0, totalTopup := totalTopup, liquidated := true,
        buyHoldEquity := bhShares * adj, rfAnnual := rfa }
    else
      { date := dt, spyClose := px, syntheticEquity := equity2,
        syntheticNotional := notional, marginReq := marginReq,
        freeCash := freeCash, totalTopup := totalTopup, liquidated := false,
        buyHoldEquity := bhShares * adj, rfAnnual := rfa },
    liq)

/-- The fill loop after liquidation (`for dt2 in idx[i + 1:]`): every
remaining date gets a row repeating the frozen equity and the liquidated
flag, with notional and margin recomputed from that day's price.  Each row
still performs the raw `rf_annual_series.loc[dt2]` lookup, which can raise. -/
def liqFill (p : SimParams) (c mlt bhShares frozenEquity totalTopup : ℚ)
    (rawRf : Date → Except SimError ℚ) :
    List (CleanRow × Option ℚ) → Except SimError (List ResultRow)
  | [] => Except.ok []
  | (row, _) :: rest =>
    match rawRf row.date with
    | Except.error e => Except.error e
    | Except.ok rfa =>
      match liqFill p c mlt bhShares frozenEquity totalTopup rawRf rest with
      | Except.error e => Except.error e
      | Except.ok rs =>
        Except.ok
          ({ date := row.date, spyClose := row.close,
             syntheticEquity := frozenEquity,
             syntheticNotional := row.close * c * mlt,
             marginReq := p.margin_pct * row.close * c * mlt,
             freeCash := 0, totalTopup := totalTopup, liquidated := true,
             buyHoldEquity := bhShares * row.adj, rfAnnual := rfa } :: rs)

/-- The day loop of `simulate_synthetic`: one `stepDay` per date; on the day
liquidation triggers, record that day's frozen row, fill the remaining dates
with `liqFill` and stop (the source's `break`). -/
def runDays (p : SimParams) (c mlt divDragDaily bhShares : ℚ)
    (rawRf : Date → Except SimError ℚ) :
    Bool → SimState → List (CleanRow × Option ℚ) →
    Except SimError (List ResultRow)
  | _, _, [] => Except.ok []
  | isFirst, st, (row, rfOpt) :: rest =>
    match rawRf row.date with
    | Except.error e => Except.error e
    | Except.ok rfa =>
      let out := stepDay p c mlt divDragDaily bhShares isFirst st row.date
        row.close row.adj rfOpt rfa
      if out.2.2 then
        match liqFill p c mlt bhShares out.1.cash out.1.totalTopup rawRf rest with
        | Except.error e => Except.error e
        | Except.ok fills => Except.ok (out.2.1 :: fills)
      else
        match runDays p c mlt divDragDaily bhShares rawRf false out.1 rest with
        | Except.error e => Except.error e
        | Except.ok rs => Except.ok (out.2.1 :: rs)

/-- Embeds `simulate_synthetic` at the rows level (the numeric metrics dict
is not part of the modelled output, but its failure behaviour is: see
`metricsGate`).  Error order follows the source: missing `Close` column
(ValueError), empty cleaned frame (IndexError at `idx[0]`), zero first
`Adj Close` (ZeroDivisionError at the buy-and-hold share computation);
during the loop only the raw rate-series row lookup can raise (KeyError);
after the loop the metrics `cagr` calls can raise (TypeError). -/
def simulate_synthetic (pf : PriceFrame) (p : SimParams)
    (rfSeries : Option RateSeries) (dailyRate : ℚ → ℚ) :
    Except SimError (List ResultRow) :=
  let cleaned := cleanRows pf
  if !pf.hasClose then Except.error SimError.valueErrorMissingClose
  else
    match cleaned with
    | [] => Except.error SimError.indexErrorEmpty
    | first :: restClean =>
      let c : ℚ := (p.contracts : ℚ)
      let mlt : ℚ := (p.contract_multiplier : ℚ)
      let divDragDaily := dailyRate p.dividend_yield_drag_annual
      let idx := (first :: restClean).map (·.date)
      let rfDailyOpts : List (Option ℚ) := rfDailyList p rfSeries dailyRate idx
      if first.adj = 0 then Except.error SimError.zeroDivisionError
      else
        let bhShares := p.initial_cash / first.adj
        let st0 : SimState :=
          { cash := p.initial_cash, totalTopup := 0, lastRoll := first.date,
            entryPrice := first.close, peakSingleTopup := 0 }
        metricsGate
          (runDays p c mlt divDragDaily bhShares (rfAnnualAt rfSeries p) true
            st0 ((first :: restClean).zip rfDailyOpts))

/-- One row of the carry curve DataFrame built by
`_annualised_carry_from_table`. -/
structure CarryRow where
  months : Int
  years : ℚ
  netDebit : ℚ
  debitPctNotional : ℚ
  annualCarry : ℚ
deriving DecidableEq

/-- `sorted(net_debit_table_months.items())`: table entries by ascending
tenor. -/
def sortTable (t : List (Int × ℚ)) : List (Int × ℚ) :=
  t.insertionSort (fun a b => a.1 ≤ b.1)

/-- The per-tenor rows: skip non-positive tenors, convert the dollar debit to
a fraction of the reference notional, annualise by the tenor in years. -/
def buildCurve (table : List (Int × ℚ)) (refNotional : ℚ) : List CarryRow :=
  (sortTable table).filterMap fun md =>
    let T : ℚ := (md.1 : ℚ) / 12
    if T ≤ 0 then none
    else
      let debitPct := md.2 / refNotional
      some { months := md.1, years := T, netDebit := md.2,
             debitPctNotional := debitPct, annualCarry := debitPct / T }

/-- `sorted(set(list(x) + [rm]))`: the reindexing key list. -/
def sortedKeys (x : List ℚ) (rm : ℚ) : List ℚ :=
  ((x ++ [rm]).dedup).insertionSort (· ≤ ·)

/-- `pd.Series(y, index=x).reindex(keys)`: value at each key, `none` (NaN)
when the key is not an original tenor. -/
def seriesOn (curve : List CarryRow) (keys : List ℚ) : List (ℚ × Option ℚ) :=
  keys.map fun k => (k, (curve.find? (fun r => (r.months : ℚ) == k)).map (·.annualCarry))

/-- Split a keyed series at a key: values before it (in order), its own value,
values after it.  `none` when the key is absent. -/
def splitAtKey : List (ℚ × Option ℚ) → ℚ →
    Option (List (Option ℚ) × Option ℚ × List (Option ℚ))
  | [], _ => none
  | kv :: rest, t =>
    if kv.1 = t then some ([], kv.2, rest.map (·.2))
    else (splitAtKey rest t).map fun bxa => (kv.2 :: bxa.1, bxa.2.1, bxa.2.2)

/-- Nearest defined value in a direction, with its positional distance. -/
def firstSomeDist : List (Option ℚ) → Option (ℚ × ℕ)
  | [] => none
  | some y :: _ => some (y, 1)
  | none :: rest => (firstSomeDist rest).map fun yd => (yd.1, yd.2 + 1)

/-- `Series.interpolate().loc[t]` for pandas' default method "linear", which
interpolates on *positions*, not index values: a missing value becomes the
positional linear combination of its nearest defined neighbours; a trailing
gap repeats the last defined value; a leading gap stays missing. -/
def interpAt (l : List (ℚ × Option ℚ)) (t : ℚ) : Option ℚ :=
  match splitAtKey l t with
  | none => none
  | some bxa =>
    match bxa.2.1 with
    | some y => some y
    | none =>
      match firstSomeDist bxa.1.reverse, firstSomeDist bxa.2.2 with
      | some yl, some yr =>
        some (yl.1 + (yr.1 - yl.1) * (yl.2 : ℚ) / ((yl.2 : ℚ) + (yr.2 : ℚ)))
      | some yl, none => some yl.1
      | none, _ => none

/-- Embeds `_annualised_carry_from_table`: returns the annualised carry rate
for the requested roll tenor and the curve rows.  Clamps to the first/last
tenor outside the table range; otherwise reindexes the curve over the key set
extended with the target and reads the interpolated value there (`getD 0`
stands for `float(...)` of a NaN, unreachable in this branch because the
target lies strictly between two defined tenors). -/
def annualisedCarryFromTable (roll_months : Int) (table : List (Int × ℚ))
    (tableSpyPrice : ℚ) (contracts : Int) (multiplier : Int) :
    ℚ × List CarryRow :=
  let refNotional := tableSpyPrice * (multiplier : ℚ) * (contracts : ℚ)
  if refNotional ≤ 0 then (0, [])
  else
    match buildCurve table refNotional with
    | [] => (0, [])
    | c0 :: crest =>
      let curve := c0 :: crest
      let x : List ℚ := curve.map fun r => (r.months : ℚ)
      let rm : ℚ := (roll_months : ℚ)
      let xmin : ℚ := (c0.months : ℚ)
      let xmax : ℚ := ((crest.getLastD c0).months : ℚ)
      if rm ≤ xmin then (c0.annualCarry, curve)
      else if xmax ≤ rm then ((crest.getLastD c0).annualCarry, curve)
      else
        ((interpAt (seriesOn curve (sortedKeys x rm)) rm).getD 0, curve)

/-- The supplied rate series (if any) has duplicate-free date labels: the
domain on which the embedding's first-match `rateLookup` agrees with pandas
label lookup (on duplicate labels pandas `reindex` raises ValueError and
`.loc` returns a sub-series instead of a scalar, which are outside this
model). -/
def seriesKeysNodup : Option RateSeries → Prop
  | none => True
  | some s => (s.map Prod.fst).Nodup

/- Concrete inputs used by witnesses and counterexamples. -/

/-- 2024-01-02. -/
def dA1 : Date := ⟨2024, 1, 2⟩

/-- 2024-01-03. -/
def dA2 : Date := ⟨2024, 1, 3⟩

/-- 2024-07-03 (six calendar months after `dA1`). -/
def dA3 : Date := ⟨2024, 7, 3⟩

/-- A clean three-day price frame. -/
def pfDemo : PriceFrame :=
  ⟨true, true, [⟨dA1, some 10, some 10⟩, ⟨dA2, some 8, some 8⟩,
    ⟨dA3, some 12, some 12⟩]⟩

/-- An unsorted frame with one NaN row. -/
def pfMessy : PriceFrame :=
  ⟨true, true, [⟨dA2, some 8, some 8⟩, ⟨dA1, some 10, some 10⟩,
    ⟨dA3, none, some 12⟩]⟩

/-- Zero starting cash under the liquidate policy: breaches on day 0. -/
def paramsLiq : SimParams := { initial_cash := 0, topup_mode := .liquidate }

/-- Small starting cash under the top-up policy: tops up on the price drop. -/
def paramsTop : SimParams := { initial_cash := 300 }

/-- Parameters violating every validity rule of the specification at once. -/
def paramsBad : SimParams :=
  { initial_cash := -5, contracts := -3, contract_multiplier := -2,
    margin_pct := 3, roll_months := 0, max_total_topup := some (-1) }

/-- A rate series that misses `dA2` and `dA3`. -/
def ratePartial : RateSeries := [(dA1, 1/20)]

/-- A rate series covering all three demo dates (integral rate values keep
every lookup free of rational normalisation). -/
def rateFull : RateSeries := [(dA1, 1), (dA2, 2), (dA3, 3)]

/-- A clean, sorted two-day frame whose close collapses from 10 to 1; with
`paramsTop` the synthetic equity goes from 300 to −600, so the metrics
block's `_cagr` hits a negative base and raises TypeError. -/
def pfCrash : PriceFrame :=
  ⟨true, true, [⟨dA1, some 10, some 10⟩, ⟨dA2, some 1, some 1⟩]⟩

/-- The same two crash rows in reversed (unsorted) date order. -/
def pfCrashU : PriceFrame :=
  ⟨true, true, [⟨dA2, some 1, some 1⟩, ⟨dA1, some 10, some 10⟩]⟩

/-- A one-row frame whose first adjusted close is 0: the buy & hold share
computation divides by it. -/
def pfZeroAdj : PriceFrame := ⟨true, true, [⟨dA1, some 10, some 0⟩]⟩

/-- 2024-01-01 (start date of the CAGR witness curve). -/
def dW1 : Date := ⟨2024, 1, 1⟩

/-- 2024-01-05 (end date of the CAGR witness curve, four elapsed days). -/
def dW2 : Date := ⟨2024, 1, 5⟩

/-- The net-debit table of specification scenario D. -/
def scenTable : List (Int × ℚ) := [(3, 747), (6, 1232), (12, 1745), (27, 2794)]

/-- The carry curve the source builds from `scenTable` at reference spot
689.56 with one contract and multiplier 100 (reference notional 68956). -/
def scenCurve : List CarryRow :=
  [⟨3, 1/4, 747, 747/68956, 747/17239⟩,
   ⟨6, 1/2, 1232, 1232/68956, 616/17239⟩,
   ⟨12, 1, 1745, 1745/68956, 1745/68956⟩,
   ⟨27, 9/4, 2794, 2794/68956, 2794/155151⟩]

end EquityDash

namespace EquityDash

/-! ## Helper lemmas -/

lemma qmax_eq_max (a b : ℚ) : qmax a b = max a b := by
  unfold qmax
  by_cases h : a ≤ b
  · rw [if_pos h, max_eq_right h]
  · rw [if_neg h, max_eq_left (le_of_not_le h)]

lemma qmin_eq_min (a b : ℚ) : qmin a b = min a b := by
  unfold qmin
  by_cases h : a ≤ b
  · rw [if_pos h, min_eq_left h]
  · rw [if_neg h, min_eq_right (le_of_not_le h)]

lemma qmin_fun : qmin = (min : ℚ → ℚ → ℚ) :=
  funext fun a => funext fun b => qmin_eq_min a b

lemma foldl_min_le (l : List ℚ) (a : ℚ) : l.foldl min a ≤ a := by
  induction l generalizing a with
  | nil => simp
  | cons b l ih => exact le_trans (ih (min a b)) (min_le_left a b)

lemma foldl_min_le_mem (l : List ℚ) (a : ℚ) :
    ∀ x ∈ l, l.foldl min a ≤ x := by
  induction l generalizing a with
  | nil => simp
  | cons b l ih =>
    intro x hx
    rcases List.mem_cons.mp hx with h | h
    · subst h
      exact le_trans (foldl_min_le l (min a x)) (min_le_right a x)
    · exact ih (min a b) x h

lemma le_foldl_min (l : List ℚ) (a c : ℚ) (ha : c ≤ a)
    (hl : ∀ x ∈ l, c ≤ x) : c ≤ l.foldl min a := by
  induction l generalizing a with
  | nil => simpa using ha
  | cons b l ih =>
    exact ih (min a b) (le_min ha (hl b (List.mem_cons_self b l)))
      (fun x hx => hl x (List.mem_cons_of_mem b hx))

lemma ddFrom_nonpos (xs : List ℚ) (m : ℚ) (hm : 0 < m)
    (hx : ∀ x ∈ xs, 0 < x) :
    ∀ d ∈ List.zipWith (fun e pk => e / pk - 1) xs (cummaxFrom m xs), d ≤ 0 := by
  induction xs generalizing m with
  | nil => simp [cummaxFrom]
  | cons x xs ih =>
    intro d hd
    have hx0 : 0 < x := hx x (List.mem_cons_self x xs)
    have hmax : 0 < max m x := lt_max_of_lt_left hm
    rcases List.mem_cons.mp (by simpa [cummaxFrom, qmax_eq_max] using hd) with h | h
    · subst h
      have : x / max m x ≤ 1 := (div_le_one hmax).mpr (le_max_right m x)
      linarith
    · exact ih (max m x) hmax (fun y hy => hx y (List.mem_cons_of_mem x hy)) d h

lemma ddFrom_zero_iff (xs : List ℚ) (m : ℚ) (hm : 0 < m)
    (hx : ∀ x ∈ xs, 0 < x) :
    (∀ d ∈ List.zipWith (fun e pk => e / pk - 1) xs (cummaxFrom m xs), d = 0) ↔
      List.Chain (· ≤ ·) m xs := by
  induction xs generalizing m with
  | nil => simp [cummaxFrom]
  | cons x xs ih =>
    have hx0 : 0 < x := hx x (List.mem_cons_self x xs)
    have hmax : 0 < max m x := lt_max_of_lt_left hm
    constructor
    · intro h
      have hhead : x / max m x - 1 = 0 := by
        refine h _ ?_
        simp [cummaxFrom, qmax_eq_max]
      have hxm : x = max m x := by
        have h1 : x / max m x = 1 := by linarith
        exact (div_eq_one_iff_eq (ne_of_gt hmax)).mp h1
      have hmx : m ≤ x := by
        rcases max_choice m x with hc | hc
        · rw [hc] at hxm
          exact le_of_eq hxm.symm
        · rw [hc] at hxm
          exact le_max_left m x |>.trans (le_of_eq hc)
      refine List.Chain.cons hmx ?_
      rw [← (ih x hx0 (fun y hy => hx y (List.mem_cons_of_mem x hy)))]
      intro d hd
      refine h d ?_
      have hmaxeq : max m x = x := max_eq_right hmx
      simp [cummaxFrom, qmax_eq_max, hmaxeq] at hd ⊢
      exact Or.inr hd
    · intro h
      cases h with
      | cons hmx htail =>
        have hmaxeq : max m x = x := max_eq_right hmx
        intro d hd
        simp [cummaxFrom, qmax_eq_max, hmaxeq] at hd
        rcases hd with h1 | h1
        · rw [h1, div_self (ne_of_gt hx0)]
          ring
        · exact (ih x hx0 (fun y hy => hx y (List.mem_cons_of_mem x hy))).mpr
            htail d h1

/-! ## C5: max drawdown -/

lemma minCmb_nonpos_left (a v : FloatV) (h : nonposF a = true) :
    nonposF (minCmb a v) = true := by
  cases a <;> cases v <;> simp_all [minCmb, nonposF, qmin_eq_min]

lemma minCmb_nonpos_right (a v : FloatV) (h : nonposF v = true) :
    nonposF (minCmb a v) = true := by
  cases a <;> cases v <;> simp_all [minCmb, nonposF, qmin_eq_min]

lemma foldl_minCmb_nonpos (l : List FloatV) :
    ∀ acc, nonposF acc = true → nonposF (l.foldl minCmb acc) = true := by
  induction l with
  | nil => exact fun acc h => h
  | cons x xs ih => exact fun acc h => ih _ (minCmb_nonpos_left acc x h)

lemma minSkipNa_nonpos_of_mem (l : List FloatV)
    (h : ∃ d ∈ l, nonposF d = true) : nonposF (minSkipNa l) = true := by
  unfold minSkipNa
  generalize FloatV.nan = acc
  induction l generalizing acc with
  | nil => obtain ⟨d, hd, -⟩ := h; cases hd
  | cons x xs ih =>
    obtain ⟨d, hd, hdn⟩ := h
    rcases List.mem_cons.mp hd with rfl | hd2
    · exact foldl_minCmb_nonpos xs _ (minCmb_nonpos_right acc d hdn)
    · exact ih ⟨d, hd2, hdn⟩ _

lemma foldl_minCmb_all_nan (l : List FloatV)
    (h : ∀ d ∈ l, d = FloatV.nan) :
    l.foldl minCmb FloatV.nan = FloatV.nan := by
  induction l with
  | nil => rfl
  | cons x xs ih =>
    have hx : x = FloatV.nan := h x (List.mem_cons_self x xs)
    subst hx
    exact ih fun d hd => h d (List.mem_cons_of_mem _ hd)

lemma foldl_minCmb_fin (qs : List ℚ) :
    ∀ a : ℚ, (qs.map FloatV.fin).foldl minCmb (FloatV.fin a) =
      FloatV.fin (qs.foldl qmin a) := by
  induction qs with
  | nil => intro a; rfl
  | cons b qs ih => intro a; exact ih (qmin a b)

lemma dd_nonpos_from_zero :
    ∀ xs : List ℚ, (∃ y ∈ xs, y ≠ 0) →
      ∃ d ∈ List.zipWith (fun e pk => subOneF (divF e pk)) xs
        (cummaxFrom 0 xs), nonposF d = true := by
  intro xs
  induction xs with
  | nil => rintro ⟨y, hy, -⟩; cases hy
  | cons x xs ih =>
    rintro ⟨y, hy, hyne⟩
    rcases lt_trichotomy x 0 with hx | hx | hx
    · refine ⟨subOneF (divF x (qmax 0 x)), ?_, ?_⟩
      · simp [cummaxFrom]
      · rw [show qmax 0 x = 0 from by simp [qmax, le_of_lt hx, not_le.mpr hx]]
        simp [divF, subOneF, nonposF, ne_of_lt hx, not_lt.mpr (le_of_lt hx)]
    · subst hx
      have hyxs : y ∈ xs := by
        rcases List.mem_cons.mp hy with h1 | h1
        · exact absurd h1 hyne
        · exact h1
      obtain ⟨d, hd, hdn⟩ := ih ⟨y, hyxs, hyne⟩
      refine ⟨d, ?_, hdn⟩
      have hq : qmax (0 : ℚ) 0 = 0 := by simp [qmax]
      simp only [cummaxFrom, hq, List.zipWith_cons_cons]
      exact List.mem_cons_of_mem _ hd
    · refine ⟨subOneF (divF x (qmax 0 x)), ?_, ?_⟩
      · simp [cummaxFrom]
      · rw [show qmax 0 x = x from by simp [qmax, le_of_lt hx]]
        simp [divF, subOneF, nonposF, ne_of_gt hx, div_self (ne_of_gt hx)]

lemma dd_all_nan_zero :
    ∀ xs : List ℚ, (∀ y ∈ xs, y = 0) →
      ∀ d ∈ List.zipWith (fun e pk => subOneF (divF e pk)) xs
        (cummaxFrom 0 xs), d = FloatV.nan := by
  intro xs
  induction xs with
  | nil => intro _ d hd; cases hd
  | cons x xs ih =>
    intro h d hd
    have hx : x = 0 := h x (List.mem_cons_self x xs)
    subst hx
    have hq : qmax (0 : ℚ) 0 = 0 := by simp [qmax]
    simp only [cummaxFrom, hq, List.zipWith_cons_cons,
      List.mem_cons] at hd
    rcases hd with h1 | h1
    · rw [h1]; simp [divF, subOneF]
    · exact ih (fun y hy => h y (List.mem_cons_of_mem _ hy)) d h1

lemma dd_pos_fin :
    ∀ (xs : List ℚ) (m : ℚ), 0 < m → (∀ y ∈ xs, 0 < y) →
      List.zipWith (fun e pk => subOneF (divF e pk)) xs (cummaxFrom m xs) =
        (List.zipWith (fun e pk => e / pk - 1) xs (cummaxFrom m xs)).map
          FloatV.fin := by
  intro xs
  induction xs with
  | nil => intro m _ _; rfl
  | cons x xs ih =>
    intro m hm hx
    have hpk : 0 < qmax m x := by
      rw [qmax_eq_max]; exact lt_max_of_lt_left hm
    simp only [cummaxFrom, List.zipWith_cons_cons, List.map_cons]
    rw [show subOneF (divF x (qmax m x)) = FloatV.fin (x / qmax m x - 1) from by
      simp [divF, subOneF, ne_of_gt hpk]]
    rw [ih (qmax m x) hpk fun y hy => hx y (List.mem_cons_of_mem _ hy)]

/-- C5 counterexample: on the decreasing, negative-valued curve `[-1, -2]`
`max_drawdown` evaluates to the finite float 0 although the curve declines,
so "equals 0 iff the equity curve is non-decreasing throughout (including
curves with zero or negative values)" is false as stated. -/
theorem C5_counterexample :
    max_drawdown [-1, -2] = FloatV.fin 0 ∧
      ¬ List.Chain' (· ≤ ·) [(-1 : ℚ), -2] := by
  constructor
  · norm_num [max_drawdown, cummax, cummaxFrom, qmax, minSkipNa, minCmb,
      divF, subOneF, qmin]
  · simp only [List.chain'_cons, List.chain'_singleton, and_true]
    norm_num

/-- C5 (amended): `max_drawdown` is ≤ 0 in float terms (−∞ allowed) for
every nonempty equity curve containing a nonzero value; on the all-zero
curve it is NaN (pandas propagates the `0/0` entries, and `NaN ≤ 0` is
false); when every equity value is positive it equals 0 iff the curve is
non-decreasing throughout.  (With zero or negative values the
"= 0 ⇒ non-decreasing" direction still fails, as the counterexample
shows.) -/
theorem C5_amended :
    (∀ l : List ℚ, l ≠ [] → (∃ x ∈ l, x ≠ 0) →
      nonposF (max_drawdown l) = true) ∧
    (∀ l : List ℚ, l ≠ [] → (∀ x ∈ l, x = 0) →
      max_drawdown l = FloatV.nan) ∧
    (∀ l : List ℚ, l ≠ [] → (∀ x ∈ l, 0 < x) →
      (max_drawdown l = FloatV.fin 0 ↔ List.Chain' (· ≤ ·) l)) := by
  refine ⟨?_, ?_, ?_⟩
  · intro l hl hnz
    match l with
    | x :: xs =>
      apply minSkipNa_nonpos_of_mem
      rcases eq_or_ne x 0 with rfl | hx0
      · obtain ⟨y, hy, hyne⟩ := hnz
        have hyxs : y ∈ xs := by
          rcases List.mem_cons.mp hy with h1 | h1
          · exact absurd h1 hyne
          · exact h1
        obtain ⟨d, hd, hdn⟩ := dd_nonpos_from_zero xs ⟨y, hyxs, hyne⟩
        refine ⟨d, ?_, hdn⟩
        simp only [cummax, List.zipWith_cons_cons]
        exact List.mem_cons_of_mem _ hd
      · refine ⟨subOneF (divF x x), ?_, ?_⟩
        · simp [cummax, cummaxFrom]
        · simp [divF, subOneF, nonposF, hx0, div_self hx0]
  · intro l hl hz
    match l with
    | x :: xs =>
      have hx : x = 0 := hz x (List.mem_cons_self x xs)
      subst hx
      unfold max_drawdown minSkipNa
      apply foldl_minCmb_all_nan
      intro d hd
      rcases List.mem_cons.mp (by
          simpa [cummax, cummaxFrom] using hd) with h1 | h1
      · rw [h1]; simp [divF, subOneF]
      · exact dd_all_nan_zero xs
          (fun y hy => hz y (List.mem_cons_of_mem _ hy)) d h1
  · intro l hl hpos
    match l with
    | x :: xs =>
      have hx0 : 0 < x := hpos x (List.mem_cons_self x xs)
      have hxs : ∀ y ∈ xs, 0 < y :=
        fun y hy => hpos y (List.mem_cons_of_mem x hy)
      have hdd : max_drawdown (x :: xs) =
          FloatV.fin ((List.zipWith (fun e pk => e / pk - 1) xs
            (cummaxFrom x xs)).foldl qmin (x / x - 1)) := by
        unfold max_drawdown minSkipNa
        simp only [cummax, List.zipWith_cons_cons]
        rw [show subOneF (divF x x) = FloatV.fin (x / x - 1) from by
          simp [divF, subOneF, ne_of_gt hx0]]
        rw [dd_pos_fin xs x hx0 hxs]
        exact foldl_minCmb_fin _ _
      rw [hdd, FloatV.fin.injEq, div_self (ne_of_gt hx0)]
      have hq : (1 : ℚ) - 1 = 0 := by norm_num
      rw [hq, qmin_fun]
      constructor
      · intro h
        have hchain : List.Chain (· ≤ ·) x xs := by
          rw [← ddFrom_zero_iff xs x hx0 hxs]
          intro d hd
          have h1 : d ≤ 0 := ddFrom_nonpos xs x hx0 hxs d hd
          have h2 : (0 : ℚ) ≤ d := h ▸ foldl_min_le_mem _ _ d hd
          linarith
        exact hchain
      · intro h
        have hall : ∀ d ∈ List.zipWith (fun e pk => e / pk - 1) xs
            (cummaxFrom x xs), d = 0 :=
          (ddFrom_zero_iff xs x hx0 hxs).mpr h
        exact le_antisymm (foldl_min_le _ _)
          (le_foldl_min _ _ _ le_rfl fun d hd => le_of_eq (hall d hd).symm)

/-- C5 witness: the amended statement applied at the concrete curves
`[2, 1]` (declining, nonzero), `[0, 0]` (all-zero, NaN) and `[1, 2]`
(positive, non-decreasing). -/
theorem C5_amended_witness :
    nonposF (max_drawdown [2, 1]) = true ∧
      max_drawdown [(0 : ℚ), 0] = FloatV.nan ∧
      (max_drawdown [(1 : ℚ), 2] = FloatV.fin 0 ↔
        List.Chain' (· ≤ ·) [(1 : ℚ), 2]) :=
  ⟨C5_amended.1 [2, 1] (by decide) ⟨2, by decide, by decide⟩,
    C5_amended.2.1 [0, 0] (by decide) (by decide),
    C5_amended.2.2 [1, 2] (by decide) (by decide)⟩

/-! ## C6: CAGR -/

/-- C6 counterexample: on the two-point curve from `dW1` to `dW2` with start
value 2 > 0, end value −6 and four elapsed days, the guards of `cagr` are
all passed, yet instead of returning `(end/start)^(365.25/days) - 1` the
program raises: `(-3.0) ** (1/years)` is a complex number and `float()` of
it raises TypeError.  So `cagr` does not return a value for every curve with
≥ 2 points, positive elapsed days and positive start. -/
theorem C6_counterexample :
    cagr [(dW1, 2), (dW2, (-6 : ℚ))] =
      Except.error SimError.typeErrorComplex := by
  have hd : dW2.toDays - dW1.toDays = 4 := by decide
  have hlast : ([(dW2, (-6 : ℚ))].getLastD (dW1, 2)) = (dW2, -6) := rfl
  simp only [cagr, List.length_cons, List.length_nil, hlast]
  rw [if_neg (by norm_num)]
  rw [hd, if_pos (by norm_num : (0 : ℤ) < 4)]
  rw [if_neg (by push_neg; constructor <;> norm_num)]
  rw [if_pos (by norm_num)]

/-- C6 (amended): `cagr` returns 0 in each guard case (fewer than two
points, elapsed days ≤ 0, start value ≤ 0); past the guards, with a
positive start, it returns `(end/start)^(365.25/days_elapsed) - 1` when the
end value is ≥ 0, but raises TypeError (complex result of the float power)
when the end value is negative. -/
theorem C6_amended :
    cagr ([] : List (Date × ℚ)) = Except.ok 0 ∧
    ∀ (f : Date × ℚ) (rest : List (Date × ℚ)),
      (rest = [] → cagr (f :: rest) = Except.ok 0) ∧
      ((rest.getLastD f).1.toDays - f.1.toDays ≤ 0 →
        cagr (f :: rest) = Except.ok 0) ∧
      (((f.2 : ℚ) : ℝ) ≤ 0 → cagr (f :: rest) = Except.ok 0) ∧
      (rest ≠ [] → 0 < (rest.getLastD f).1.toDays - f.1.toDays →
        (0 : ℝ) < ((f.2 : ℚ) : ℝ) →
        ((((rest.getLastD f).2 : ℚ) : ℝ) < 0 →
          cagr (f :: rest) = Except.error SimError.typeErrorComplex) ∧
        ((0 : ℝ) ≤ (((rest.getLastD f).2 : ℚ) : ℝ) →
          cagr (f :: rest) = Except.ok
            (((((rest.getLastD f).2 : ℚ) : ℝ) / ((f.2 : ℚ) : ℝ)) ^
                ((365.25 : ℝ) /
                  (((rest.getLastD f).1.toDays - f.1.toDays : ℤ) : ℝ))
              - 1))) := by
  constructor
  · simp [cagr]
  · intro f rest
    refine ⟨?_, ?_, ?_, ?_⟩
    · intro h
      subst h
      simp only [cagr]
      rw [if_pos (by simp)]
    · intro hdays
      by_cases hlen : (f :: rest).length < 2
      · simp only [cagr]
        rw [if_pos hlen]
      · simp only [cagr]
        rw [if_neg hlen, if_neg (not_lt.mpr hdays),
          if_pos (Or.inl (le_refl (0 : ℝ)))]
    · intro hstart
      by_cases hlen : (f :: rest).length < 2
      · simp only [cagr]
        rw [if_pos hlen]
      · simp only [cagr]
        rw [if_neg hlen, if_pos (Or.inr hstart)]
    · intro hne hdays hstart
      have hlen : ¬ (f :: rest).length < 2 := by
        cases rest with
        | nil => exact absurd rfl hne
        | cons a l => simp
      have hdR : (0 : ℝ) <
          (((rest.getLastD f).1.toDays - f.1.toDays : ℤ) : ℝ) := by
        exact_mod_cast hdays
      have h365 : (0 : ℝ) < (365.25 : ℝ) := by norm_num
      have hyearspos : (0 : ℝ) <
          (((rest.getLastD f).1.toDays - f.1.toDays : ℤ) : ℝ) /
            (365.25 : ℝ) :=
        div_pos hdR h365
      constructor
      · intro hend
        simp only [cagr]
        rw [if_neg hlen, if_pos hdays,
          if_neg (by push_neg; exact ⟨hyearspos, hstart⟩),
          if_pos (div_neg_of_neg_of_pos hend hstart)]
      · intro hend
        simp only [cagr]
        rw [if_neg hlen, if_pos hdays,
          if_neg (by push_neg; exact ⟨hyearspos, hstart⟩),
          if_neg (not_lt.mpr (div_nonneg hend (le_of_lt hstart)))]
        rw [one_div_div]

/-- C6 witness: the formula case applied to the concrete curve from `dW1`
to `dW2` (four elapsed days, start 2, end 6), and the TypeError case at the
counterexample curve ending at −6. -/
theorem C6_amended_witness :
    cagr [(dW1, 2), (dW2, (6 : ℚ))] =
      Except.ok ((((6 : ℚ) : ℝ) / ((2 : ℚ) : ℝ)) ^
        ((365.25 : ℝ) / ((dW2.toDays - dW1.toDays : ℤ) : ℝ)) - 1) :=
  ((C6_amended.2 (dW1, 2) [(dW2, 6)]).2.2.2 (by decide) (by decide)
    (by norm_num)).2 (by norm_num)

/-! ## C2: roll rule -/

/-- C2: a roll happens on a day iff the calendar-month difference
`(year*12+month) - (year*12+month of the last roll)` is at least
`roll_months`; when it does, cash increases by exactly
`(price - entry_price) * contracts * multiplier` and entry price and last
roll date are reset; otherwise all three are unchanged; day 0 (the
`isFirst` day) never rolls; and the day state takes its entry price and
last-roll date from the single roll application of that day, so at most one
roll is realised per day no matter how many intervals have elapsed. -/
theorem C2_roll_rule (p : SimParams) (st : SimState) (dt : Date) (px : ℚ) :
    (shouldRoll st.lastRoll dt p.roll_months = true ↔
      p.roll_months ≤ (dt.y * 12 + dt.m) - (st.lastRoll.y * 12 + st.lastRoll.m)) ∧
    applyRoll p true st dt px = (st.cash, st.entryPrice, st.lastRoll) ∧
    (shouldRoll st.lastRoll dt p.roll_months = true →
      applyRoll p false st dt px =
        (st.cash +
          (px - st.entryPrice) * (p.contracts : ℚ) * (p.contract_multiplier : ℚ),
          px, dt)) ∧
    (shouldRoll st.lastRoll dt p.roll_months = false →
      applyRoll p false st dt px = (st.cash, st.entryPrice, st.lastRoll)) ∧
    (∀ (c mlt divDragDaily bhShares adj : ℚ) (rfD : Option ℚ) (rfa : ℚ)
        (isFirst : Bool),
      (stepDay p c mlt divDragDaily bhShares isFirst st dt px adj rfD
            rfa).1.entryPrice =
          (applyRoll p isFirst st dt px).2.1 ∧
        (stepDay p c mlt divDragDaily bhShares isFirst st dt px adj rfD
            rfa).1.lastRoll =
          (applyRoll p isFirst st dt px).2.2) := by
  refine ⟨?_, ?_, ?_, ?_, ?_⟩
  · simp only [shouldRoll, decide_eq_true_eq]
    omega
  · simp [applyRoll]
  · intro h
    simp [applyRoll, h]
  · intro h
    simp [applyRoll, h]
  · intro c mlt divDragDaily bhShares adj rfD rfa isFirst
    exact ⟨rfl, rfl⟩

/-- C2 witness: the roll rule instantiated at a concrete state; `dA1` to
`dA3` is a six-calendar-month difference, so the default six-month cadence
rolls and realises `(12 - 10) * 1 * 100` into cash. -/
theorem C2_roll_rule_witness :
    shouldRoll dA1 dA3 (6 : Int) = true ∧
      applyRoll {} false
          { cash := 30000, totalTopup := 0, lastRoll := dA1, entryPrice := 10,
            peakSingleTopup := 0 } dA3 12 = (30200, 12, dA3) := by
  refine ⟨by decide, ?_⟩
  have h3 := (C2_roll_rule {}
    { cash := 30000, totalTopup := 0, lastRoll := dA1, entryPrice := 10,
      peakSingleTopup := 0 } dA3 12).2.2.1 (by decide)
  rw [h3]
  norm_num [Prod.ext_iff]

/-! ## C7: carry-curve interpolation -/

/-- C7 counterexample: at target tenor 7 (strictly between the table tenors 6
and 12 of scenario D's table) the source's `Series.interpolate()` call
interpolates on positions, so the result is the arithmetic mean of the two
neighbouring annualised rates, not the tenor-proportional linear interpolant
the claim describes. -/
theorem C7_counterexample :
    (annualisedCarryFromTable 7 scenTable (689.56 : ℚ) 1 100).1 =
        ((616 : ℚ)/17239 + 1745/68956)/2 ∧
      ((616 : ℚ)/17239 + 1745/68956)/2 ≠
        (616 : ℚ)/17239 +
          ((1745 : ℚ)/68956 - 616/17239) * (((7 : ℚ) - 6) / ((12 : ℚ) - 6)) := by
  constructor
  · norm_num [annualisedCarryFromTable, buildCurve, sortTable, sortedKeys,
      seriesOn, splitAtKey, firstSomeDist, interpAt, scenTable,
      List.insertionSort, List.orderedInsert, List.filterMap_cons,
      List.dedup_cons_of_not_mem, List.dedup_cons_of_mem, List.dedup_nil,
      beq_iff_eq, List.find?_cons_of_pos, List.find?_cons_of_neg, List.getLast?]
  · norm_num

set_option maxHeartbeats 2000000 in
/-- C7 (amended): on scenario D's table at reference spot 689.56 with one
contract, each curve row's annual carry is
`(net_debit / (spot * multiplier * contracts)) / (tenor/12)`; a target tenor
equal to a table key (in particular tenor 6) returns exactly that key's own
annualised rate; tenors outside the table clamp to the nearest endpoint; and
a tenor strictly between two adjacent table keys returns the arithmetic mean
of their two rates (pandas positional interpolation), not the
tenor-proportional linear interpolant. -/
theorem C7_amended (rm : Int) :
    annualisedCarryFromTable rm scenTable (689.56 : ℚ) 1 100 =
      ((if rm ≤ 3 then (747 : ℚ)/17239
        else if rm < 6 then ((747 : ℚ)/17239 + 616/17239)/2
        else if rm = 6 then (616 : ℚ)/17239
        else if rm < 12 then ((616 : ℚ)/17239 + 1745/68956)/2
        else if rm = 12 then (1745 : ℚ)/68956
        else if rm < 27 then ((1745 : ℚ)/68956 + 2794/155151)/2
        else (2794 : ℚ)/155151), scenCurve) := by
  rcases le_or_lt rm 3 with h3 | h3
  · have hq : (rm : ℚ) ≤ 3 := by exact_mod_cast h3
    rw [if_pos h3]
    norm_num [annualisedCarryFromTable, buildCurve, sortTable, scenTable, scenCurve,
      List.insertionSort, List.orderedInsert, List.filterMap_cons, hq]
  · rcases le_or_lt 27 rm with h27 | h27
    · have hq1 : ¬ ((rm : ℚ) ≤ 3) := by push_neg; exact_mod_cast by omega
      have hq2 : (27 : ℚ) ≤ (rm : ℚ) := by exact_mod_cast h27
      rw [if_neg (by omega), if_neg (by omega), if_neg (by omega),
        if_neg (by omega), if_neg (by omega), if_neg (by omega)]
      norm_num [annualisedCarryFromTable, buildCurve, sortTable, scenTable, scenCurve,
        List.insertionSort, List.orderedInsert, List.filterMap_cons, hq1, hq2]
    · interval_cases rm <;>
        norm_num [annualisedCarryFromTable, buildCurve, sortTable, sortedKeys,
          seriesOn, splitAtKey, firstSomeDist, interpAt, scenTable, scenCurve,
          List.insertionSort, List.orderedInsert, List.filterMap_cons,
          List.dedup_cons_of_not_mem, List.dedup_cons_of_mem, List.dedup_nil,
          beq_iff_eq, List.find?_cons_of_pos, List.find?_cons_of_neg, List.getLast?]

/-- C7 witness: the amended characterisation instantiated at the exact table
key 6 (scenario D's boundary hit, no interpolation error). -/
theorem C7_amended_witness :
    annualisedCarryFromTable 6 scenTable (689.56 : ℚ) 1 100 =
      ((616 : ℚ)/17239, scenCurve) :=
  (C7_amended 6).trans (by norm_num)

/-! ## C9: top-up day equity -/

/-- C9: on a day where a top-up occurs (the cumulative top-up strictly
increases) and liquidation is not triggered, the recorded synthetic equity is
the pre-top-up equity, strictly below that row's margin requirement; the
row's cumulative top-up already includes the shortfall; and the end-of-day
cash satisfies `cash + P&L = margin requirement`, i.e. the top-up brings
next-day equity exactly to the requirement and raises equity only from the
following day's row onward. -/
theorem C9_topup_day (p : SimParams) (c mlt divDragDaily bhShares : ℚ)
    (isFirst : Bool) (st : SimState) (dt : Date) (px adj : ℚ)
    (rfD : Option ℚ) (rfa : ℚ) (st' : SimState) (row : ResultRow)
    (h : stepDay p c mlt divDragDaily bhShares isFirst st dt px adj rfD rfa =
      (st', row, false))
    (htopup : st.totalTopup < row.totalTopup) :
    row.syntheticEquity < row.marginReq ∧
      row.totalTopup = st.totalTopup + (row.marginReq - row.syntheticEquity) ∧
      st'.cash + (row.spyClose - st'.entryPrice) * c * mlt = row.marginReq := by
  simp only [stepDay] at h
  split at h
  · rename_i hbr
    split at h
    · split at h
      · have hliq := congrArg (fun t => t.2.2) h
        dsimp only at hliq
        rw [hliq] at h
        have hst := congrArg Prod.fst h
        have hrow := congrArg (fun t => t.2.1) h
        dsimp only at hst hrow
        rw [if_neg (by simp)] at hrow
        subst hst
        subst hrow
        refine ⟨by simpa using hbr, by simp; try ring, by simp; try ring⟩
      · have hst := congrArg Prod.fst h
        have hrow := congrArg (fun t => t.2.1) h
        dsimp only at hst hrow
        rw [if_neg (by simp)] at hrow
        subst hst
        subst hrow
        refine ⟨by simpa using hbr, by simp; try ring, by simp; try ring⟩
    · have hliq := congrArg (fun t => t.2.2) h
      simp at hliq
  · have hrow := congrArg (fun t => t.2.1) h
    dsimp only at hrow
    rw [if_neg (by simp)] at hrow
    rw [← hrow] at htopup
    simp at htopup

/-- C9 witness: the day-1 top-up of the small-cash scenario (price 10 → 8,
cash 300): the step tops up by 100, records pre-top-up equity 100 below the
margin requirement 200, and leaves cash 400 = 200 - (8 - 10) * 100. -/
theorem C9_topup_day_witness :
    stepDay paramsTop 1 100 0 30 false
        { cash := 300, totalTopup := 0, lastRoll := dA1, entryPrice := 10,
          peakSingleTopup := 0 } dA2 8 8 (some 0) (9/200) =
      ({ cash := 400, totalTopup := 100, lastRoll := dA1, entryPrice := 10,
          peakSingleTopup := 100 },
        { date := dA2, spyClose := 8, syntheticEquity := 100,
          syntheticNotional := 800, marginReq := 200, freeCash := 0,
          totalTopup := 100, liquidated := false, buyHoldEquity := 240,
          rfAnnual := 9/200 }, false) ∧
      (0 : ℚ) < 100 ∧
      ((100 : ℚ) < 200 ∧ (100 : ℚ) = 0 + (200 - 100) ∧
        (400 : ℚ) + (8 - 10) * 1 * 100 = 200) := by
  have hstep : stepDay paramsTop 1 100 0 30 false
      { cash := 300, totalTopup := 0, lastRoll := dA1, entryPrice := 10,
        peakSingleTopup := 0 } dA2 8 8 (some 0) (9/200) =
      ({ cash := 400, totalTopup := 100, lastRoll := dA1, entryPrice := 10,
          peakSingleTopup := 100 },
        { date := dA2, spyClose := 8, syntheticEquity := 100,
          syntheticNotional := 800, marginReq := 200, freeCash := 0,
          totalTopup := 100, liquidated := false, buyHoldEquity := 240,
          rfAnnual := 9/200 }, false) := by
    norm_num [stepDay, applyRoll, shouldRoll, qmax, paramsTop, dA1, dA2]
  refine ⟨hstep, by norm_num, ?_⟩
  exact C9_topup_day paramsTop 1 100 0 30 false
    { cash := 300, totalTopup := 0, lastRoll := dA1, entryPrice := 10,
      peakSingleTopup := 0 } dA2 8 8 (some 0) (9/200) _ _ hstep (by norm_num)

/-! ## Day-loop structure lemmas -/

lemma stepDay_spec (p : SimParams) (c mlt divDragDaily bhShares : ℚ)
    (isFirst : Bool) (st : SimState) (dt : Date) (px adj : ℚ)
    (rfD : Option ℚ) (rfa : ℚ) :
    (stepDay p c mlt divDragDaily bhShares isFirst st dt px adj rfD
        rfa).2.1.date = dt ∧
    (stepDay p c mlt divDragDaily bhShares isFirst st dt px adj rfD
        rfa).2.1.spyClose = px ∧
    (stepDay p c mlt divDragDaily bhShares isFirst st dt px adj rfD
        rfa).2.1.rfAnnual = rfa ∧
    (stepDay p c mlt divDragDaily bhShares isFirst st dt px adj rfD
        rfa).2.1.syntheticNotional = px * c * mlt ∧
    (stepDay p c mlt divDragDaily bhShares isFirst st dt px adj rfD
        rfa).2.1.marginReq = p.margin_pct * (px * c * mlt) ∧
    (stepDay p c mlt divDragDaily bhShares isFirst st dt px adj rfD
        rfa).2.1.liquidated =
      (stepDay p c mlt divDragDaily bhShares isFirst st dt px adj rfD rfa).2.2 ∧
    ((stepDay p c mlt divDragDaily bhShares isFirst st dt px adj rfD
          rfa).2.2 = true →
      (stepDay p c mlt divDragDaily bhShares isFirst st dt px adj rfD
          rfa).2.1.syntheticEquity =
        (stepDay p c mlt divDragDaily bhShares isFirst st dt px adj rfD
            rfa).1.cash ∧
      (stepDay p c mlt divDragDaily bhShares isFirst st dt px adj rfD
          rfa).2.1.totalTopup =
        (stepDay p c mlt divDragDaily bhShares isFirst st dt px adj rfD
            rfa).1.totalTopup) := by
  refine ⟨?_, ?_, ?_, ?_, ?_, ?_, ?_⟩
  · simp only [stepDay]
    rw [apply_ite ResultRow.date]
    simp
  · simp only [stepDay]
    rw [apply_ite ResultRow.spyClose]
    simp
  · simp only [stepDay]
    rw [apply_ite ResultRow.rfAnnual]
    simp
  · simp only [stepDay]
    rw [apply_ite ResultRow.syntheticNotional]
    simp
  · simp only [stepDay]
    rw [apply_ite ResultRow.marginReq]
    simp
  · simp only [stepDay]
    rw [apply_ite ResultRow.liquidated]
    split <;> simp_all
  · intro h
    simp only [stepDay] at h ⊢
    simp [h]

lemma liqFill_ok_spec (p : SimParams) (c mlt bhShares fe tt : ℚ)
    (rawRf : Date → Except SimError ℚ) :
    ∀ (days : List (CleanRow × Option ℚ)) (rows : List ResultRow),
      liqFill p c mlt bhShares fe tt rawRf days = Except.ok rows →
      rows.map (·.date) = days.map (fun x => x.1.date) ∧
      ∀ r ∈ rows, r.liquidated = true ∧ r.syntheticEquity = fe ∧
        r.totalTopup = tt ∧
        r.syntheticNotional = r.spyClose * c * mlt ∧
        r.marginReq = p.margin_pct * r.spyClose * c * mlt ∧
        rawRf r.date = Except.ok r.rfAnnual := by
  intro days
  induction days with
  | nil =>
    intro rows h
    simp only [liqFill] at h
    cases h
    simp
  | cons x rest ih =>
    intro rows h
    obtain ⟨row, ro⟩ := x
    simp only [liqFill] at h
    cases hr : rawRf row.date with
    | error e => rw [hr] at h; cases h
    | ok rfa =>
      rw [hr] at h
      cases hrec : liqFill p c mlt bhShares fe tt rawRf rest with
      | error e => rw [hrec] at h; cases h
      | ok rs =>
        rw [hrec] at h
        cases h
        obtain ⟨ihdates, ihmem⟩ := ih rs hrec
        constructor
        · simpa using ihdates
        · intro r hrmem
          rcases List.mem_cons.mp hrmem with hhd | htl
          · subst hhd
            exact ⟨rfl, rfl, rfl, rfl, rfl, hr⟩
          · exact ihmem r htl

lemma liqFill_ok_of_covers (p : SimParams) (c mlt bhShares fe tt : ℚ)
    (rawRf : Date → Except SimError ℚ) :
    ∀ (days : List (CleanRow × Option ℚ)),
      (∀ x ∈ days, ∃ q, rawRf x.1.date = Except.ok q) →
      ∃ rows, liqFill p c mlt bhShares fe tt rawRf days = Except.ok rows := by
  intro days
  induction days with
  | nil => exact fun _ => ⟨[], rfl⟩
  | cons x rest ih =>
    intro hcov
    obtain ⟨row, ro⟩ := x
    obtain ⟨q, hq⟩ := hcov (row, ro) (List.mem_cons_self _ _)
    obtain ⟨rs, hrs⟩ := ih (fun y hy => hcov y (List.mem_cons_of_mem _ hy))
    simp only [liqFill]
    rw [hq, hrs]
    exact ⟨_, rfl⟩

lemma liqFill_keyError (p : SimParams) (c mlt bhShares fe tt : ℚ)
    (s : RateSeries) :
    ∀ (days : List (CleanRow × Option ℚ)),
      (∃ x ∈ days, rateLookup s x.1.date = none) →
      liqFill p c mlt bhShares fe tt (rfAnnualAt (some s) p) days =
        Except.error SimError.keyError := by
  intro days
  induction days with
  | nil => rintro ⟨x, hx, -⟩; cases hx
  | cons x rest ih =>
    rintro ⟨y, hy, hnone⟩
    obtain ⟨row, ro⟩ := x
    simp only [liqFill]
    cases hl : rateLookup s row.date with
    | none => simp [rfAnnualAt, hl]
    | some v =>
      have hyrest : y ∈ rest := by
        rcases List.mem_cons.mp hy with h1 | h1
        · subst h1; rw [hl] at hnone; cases hnone
        · exact h1
      rw [ih ⟨y, hyrest, hnone⟩]
      simp [rfAnnualAt, hl]

lemma runDays_ok_spec (p : SimParams) (c mlt dd bh : ℚ)
    (rawRf : Date → Except SimError ℚ) :
    ∀ (days : List (CleanRow × Option ℚ)) (isFirst : Bool) (st : SimState)
      (rows : List ResultRow),
      runDays p c mlt dd bh rawRf isFirst st days = Except.ok rows →
      rows.map (·.date) = days.map (fun x => x.1.date) ∧
      ∀ r ∈ rows, rawRf r.date = Except.ok r.rfAnnual := by
  intro days
  induction days with
  | nil =>
    intro isFirst st rows h
    simp only [runDays] at h
    cases h
    simp
  | cons x rest ih =>
    intro isFirst st rows h
    obtain ⟨row, ro⟩ := x
    simp only [runDays] at h
    split at h
    · cases h
    · rename_i rfa hr
      obtain ⟨h1, h2, h3, h4, h5, h6, h7⟩ :=
        stepDay_spec p c mlt dd bh isFirst st row.date row.close row.adj ro rfa
      split at h
      · split at h
        · cases h
        · rename_i fills hfills
          cases h
          obtain ⟨hd, hm⟩ :=
            liqFill_ok_spec p c mlt bh _ _ rawRf rest fills hfills
          constructor
          · simp only [List.map_cons, hd, h1]
          · intro r hrmem
            rcases List.mem_cons.mp hrmem with hhd | htl
            · subst hhd
              rw [h1, h3]
              exact hr
            · exact (hm r htl).2.2.2.2.2
      · split at h
        · cases h
        · rename_i rs hrec
          cases h
          obtain ⟨hd, hm⟩ := ih false _ rs hrec
          constructor
          · simp only [List.map_cons, hd, h1]
          · intro r hrmem
            rcases List.mem_cons.mp hrmem with hhd | htl
            · subst hhd
              rw [h1, h3]
              exact hr
            · exact hm r htl

lemma runDays_ok_of_covers (p : SimParams) (c mlt dd bh : ℚ)
    (rawRf : Date → Except SimError ℚ) :
    ∀ (days : List (CleanRow × Option ℚ)) (isFirst : Bool) (st : SimState),
      (∀ x ∈ days, ∃ q, rawRf x.1.date = Except.ok q) →
      ∃ rows, runDays p c mlt dd bh rawRf isFirst st days = Except.ok rows := by
  intro days
  induction days with
  | nil => exact fun _ _ _ => ⟨[], rfl⟩
  | cons x rest ih =>
    intro isFirst st hcov
    obtain ⟨row, ro⟩ := x
    obtain ⟨q, hq⟩ := hcov (row, ro) (List.mem_cons_self _ _)
    simp only [runDays, hq]
    by_cases hliq : (stepDay p c mlt dd bh isFirst st row.date row.close
        row.adj ro q).2.2 = true
    · rw [if_pos hliq]
      obtain ⟨fills, hfills⟩ := liqFill_ok_of_covers p c mlt bh _ _ rawRf rest
        (fun y hy => hcov y (List.mem_cons_of_mem _ hy))
      rw [hfills]
      exact ⟨_, rfl⟩
    · rw [if_neg hliq]
      obtain ⟨rs, hrs⟩ := ih false _
        (fun y hy => hcov y (List.mem_cons_of_mem _ hy))
      rw [hrs]
      exact ⟨_, rfl⟩

lemma runDays_keyError (p : SimParams) (c mlt dd bh : ℚ) (s : RateSeries) :
    ∀ (days : List (CleanRow × Option ℚ)) (isFirst : Bool) (st : SimState),
      (∃ x ∈ days, rateLookup s x.1.date = none) →
      runDays p c mlt dd bh (rfAnnualAt (some s) p) isFirst st days =
        Except.error SimError.keyError := by
  intro days
  induction days with
  | nil => rintro _ _ ⟨x, hx, -⟩; cases hx
  | cons x rest ih =>
    rintro isFirst st ⟨y, hy, hnone⟩
    obtain ⟨row, ro⟩ := x
    simp only [runDays]
    cases hl : rateLookup s row.date with
    | none => simp [rfAnnualAt, hl]
    | some v =>
      have hyrest : y ∈ rest := by
        rcases List.mem_cons.mp hy with h1 | h1
        · subst h1; rw [hl] at hnone; cases hnone
        · exact h1
      have hraw : rfAnnualAt (some s) p row.date = Except.ok v := by
        simp [rfAnnualAt, hl]
      simp only [hraw]
      by_cases hliq : (stepDay p c mlt dd bh isFirst st row.date row.close
          row.adj ro v).2.2 = true
      · rw [if_pos hliq,
          liqFill_keyError p c mlt bh _ _ s rest ⟨y, hyrest, hnone⟩]
      · rw [if_neg hliq, ih false _ ⟨y, hyrest, hnone⟩]

lemma runDays_frozen (p : SimParams) (c mlt dd bh : ℚ)
    (rawRf : Date → Except SimError ℚ) :
    ∀ (days : List (CleanRow × Option ℚ)) (isFirst : Bool) (st : SimState)
      (rows : List ResultRow),
      runDays p c mlt dd bh rawRf isFirst st days = Except.ok rows →
      ∀ (i j : ℕ) (ri rj : ResultRow), i ≤ j → rows[i]? = some ri →
        rows[j]? = some rj → ri.liquidated = true →
        rj.liquidated = true ∧ rj.syntheticEquity = ri.syntheticEquity ∧
        rj.syntheticNotional = rj.spyClose * c * mlt ∧
        rj.marginReq = p.margin_pct * rj.spyClose * c * mlt := by
  intro days
  induction days with
  | nil =>
    intro isFirst st rows h i j ri rj hij hi hj hril
    simp only [runDays] at h
    cases h
    simp at hi
  | cons x rest ih =>
    intro isFirst st rows h i j ri rj hij hi hj hril
    obtain ⟨row, ro⟩ := x
    simp only [runDays] at h
    split at h
    · cases h
    · rename_i rfa hr
      obtain ⟨h1, h2, h3, h4, h5, h6, h7⟩ :=
        stepDay_spec p c mlt dd bh isFirst st row.date row.close row.adj ro rfa
      split at h
      · rename_i hliq
        split at h
        · cases h
        · rename_i fills hfills
          cases h
          obtain ⟨-, hm⟩ :=
            liqFill_ok_spec p c mlt bh _ _ rawRf rest fills hfills
          obtain ⟨heq, htt⟩ := h7 hliq
          cases i with
          | zero =>
            rw [List.getElem?_cons_zero] at hi
            cases hi
            cases j with
            | zero =>
              rw [List.getElem?_cons_zero] at hj
              cases hj
              refine ⟨by rw [h6]; exact hliq, rfl, ?_, ?_⟩
              · rw [h4, h2]
              · rw [h5, h2]; ring
            | succ j' =>
              rw [List.getElem?_cons_succ] at hj
              have hmem := List.getElem?_mem hj
              obtain ⟨hl1, hl2, hl3, hl4, hl5, -⟩ := hm rj hmem
              exact ⟨hl1, by rw [hl2, heq], hl4, hl5⟩
          | succ i' =>
            cases j with
            | zero => omega
            | succ j' =>
              rw [List.getElem?_cons_succ] at hi hj
              obtain ⟨hi1, hi2, -, -, -, -⟩ := hm ri (List.getElem?_mem hi)
              obtain ⟨hj1, hj2, -, hj4, hj5, -⟩ := hm rj (List.getElem?_mem hj)
              exact ⟨hj1, by rw [hj2, hi2], hj4, hj5⟩
      · rename_i hliq
        split at h
        · cases h
        · rename_i rs hrec
          cases h
          cases i with
          | zero =>
            rw [List.getElem?_cons_zero] at hi
            cases hi
            exact absurd (by rw [← h6]; exact hril) hliq
          | succ i' =>
            cases j with
            | zero => omega
            | succ j' =>
              rw [List.getElem?_cons_succ] at hi hj
              exact ih false _ rs hrec i' j' ri rj (by omega) hi hj hril

/-! ## Bridging `simulate_synthetic` to the day loop -/

lemma simulate_missingClose (pf : PriceFrame) (p : SimParams)
    (rfS : Option RateSeries) (dr : ℚ → ℚ) (hC : pf.hasClose = false) :
    simulate_synthetic pf p rfS dr =
      Except.error SimError.valueErrorMissingClose := by
  simp [simulate_synthetic, hC]

lemma simulate_empty (pf : PriceFrame) (p : SimParams)
    (rfS : Option RateSeries) (dr : ℚ → ℚ) (hC : pf.hasClose = true)
    (h : cleanRows pf = []) :
    simulate_synthetic pf p rfS dr = Except.error SimError.indexErrorEmpty := by
  simp [simulate_synthetic, hC, h]

lemma simulate_zeroAdj (pf : PriceFrame) (p : SimParams)
    (rfS : Option RateSeries) (dr : ℚ → ℚ) (f : CleanRow)
    (rest : List CleanRow) (hC : pf.hasClose = true)
    (hclean : cleanRows pf = f :: rest) (hadj : f.adj = 0) :
    simulate_synthetic pf p rfS dr =
      Except.error SimError.zeroDivisionError := by
  simp [simulate_synthetic, hC, hclean, hadj]

lemma simulate_eq_runDays (pf : PriceFrame) (p : SimParams)
    (rfS : Option RateSeries) (dr : ℚ → ℚ) (f : CleanRow)
    (rest : List CleanRow) (hC : pf.hasClose = true)
    (hclean : cleanRows pf = f :: rest) (hadj : f.adj ≠ 0) :
    simulate_synthetic pf p rfS dr =
      metricsGate (runDays p (p.contracts : ℚ) (p.contract_multiplier : ℚ)
        (dr p.dividend_yield_drag_annual) (p.initial_cash / f.adj)
        (rfAnnualAt rfS p) true
        { cash := p.initial_cash, totalTopup := 0, lastRoll := f.date,
          entryPrice := f.close, peakSingleTopup := 0 }
        ((f :: rest).zip
          (rfDailyList p rfS dr ((f :: rest).map (·.date))))) := by
  simp [simulate_synthetic, hC, hclean, hadj]

lemma metricsGate_ok_inv (res : Except SimError (List ResultRow))
    (rows : List ResultRow) (h : metricsGate res = Except.ok rows) :
    res = Except.ok rows := by
  cases res with
  | error e => simp [metricsGate] at h
  | ok rs =>
    simp only [metricsGate] at h
    split at h
    · cases h
    · split at h
      · cases h
      · cases h; rfl

lemma metricsGate_cases (rows : List ResultRow) :
    metricsGate (Except.ok rows) = Except.ok rows ∨
      metricsGate (Except.ok rows) =
        Except.error SimError.typeErrorComplex := by
  simp only [metricsGate]
  split
  · right; rfl
  · split
    · right; rfl
    · left; rfl

lemma simulate_congr (pf1 pf2 : PriceFrame) (p : SimParams)
    (rfS : Option RateSeries) (dr : ℚ → ℚ)
    (h1 : pf1.hasClose = pf2.hasClose) (h2 : cleanRows pf1 = cleanRows pf2) :
    simulate_synthetic pf1 p rfS dr = simulate_synthetic pf2 p rfS dr := by
  simp only [simulate_synthetic, h1, h2]

lemma ffillFrom_length :
    ∀ (l : List (Option ℚ)) (prev : Option ℚ),
      (ffillFrom prev l).length = l.length := by
  intro l
  induction l with
  | nil => intro prev; rfl
  | cons v rest ih => intro prev; simp [ffillFrom, ih]

lemma rfDailyList_length (p : SimParams) (rfS : Option RateSeries)
    (dr : ℚ → ℚ) (idx : List Date) :
    (rfDailyList p rfS dr idx).length = idx.length := by
  cases rfS with
  | none => simp [rfDailyList]
  | some s =>
    simp [rfDailyList, bfill, ffill, ffillFrom_length, reindexOn]

lemma zip_rf_dates (p : SimParams) (rfS : Option RateSeries) (dr : ℚ → ℚ)
    (l : List CleanRow) :
    ((l.zip (rfDailyList p rfS dr (l.map (·.date)))).map fun x => x.1.date) =
      l.map (·.date) := by
  have hlen : l.length ≤ (rfDailyList p rfS dr (l.map (·.date))).length := by
    rw [rfDailyList_length, List.length_map]
  calc (l.zip (rfDailyList p rfS dr (l.map (·.date)))).map
        (fun x => x.1.date)
      = ((l.zip (rfDailyList p rfS dr (l.map (·.date)))).map Prod.fst).map
          (fun r => r.date) := by rw [List.map_map]; rfl
    _ = l.map (·.date) := by rw [List.map_fst_zip _ _ hlen]

lemma cleanRows_dates (pf : PriceFrame) :
    (cleanRows pf).map (·.date) = (sortRows (dropnaRows pf)).map (·.date) := by
  simp only [cleanRows, List.map_map]
  rfl

lemma cleanRows_sorted (pf : PriceFrame) :
    List.Pairwise (fun a b : Date => a.toDays ≤ b.toDays)
      ((cleanRows pf).map (·.date)) := by
  rw [cleanRows_dates]
  exact List.Pairwise.map _ (fun a b hab => hab)
    (List.sorted_insertionSort rowDateLe (dropnaRows pf))

lemma simulate_rows_spec (pf : PriceFrame) (p : SimParams)
    (rfS : Option RateSeries) (dr : ℚ → ℚ) (f : CleanRow)
    (rest : List CleanRow) (hC : pf.hasClose = true)
    (hclean : cleanRows pf = f :: rest) (hadj : f.adj ≠ 0)
    (rows : List ResultRow)
    (h : simulate_synthetic pf p rfS dr = Except.ok rows) :
    rows.map (·.date) = (cleanRows pf).map (·.date) ∧
      ∀ r ∈ rows, rfAnnualAt rfS p r.date = Except.ok r.rfAnnual := by
  rw [simulate_eq_runDays pf p rfS dr f rest hC hclean hadj] at h
  have h' := metricsGate_ok_inv _ _ h
  obtain ⟨hdates, hrf⟩ := runDays_ok_spec p _ _ _ _ _ _ true _ rows h'
  refine ⟨?_, hrf⟩
  rw [hdates, hclean]
  exact zip_rf_dates p rfS dr (f :: rest)

lemma simulate_completes (pf : PriceFrame) (p : SimParams)
    (rfS : Option RateSeries) (dr : ℚ → ℚ) (f : CleanRow)
    (rest : List CleanRow) (hC : pf.hasClose = true)
    (hclean : cleanRows pf = f :: rest) (hadj : f.adj ≠ 0)
    (hcov : ∀ d ∈ (cleanRows pf).map (·.date),
      ∃ q, rfAnnualAt rfS p d = Except.ok q) :
    (∃ rows, simulate_synthetic pf p rfS dr = Except.ok rows) ∨
      simulate_synthetic pf p rfS dr =
        Except.error SimError.typeErrorComplex := by
  rw [simulate_eq_runDays pf p rfS dr f rest hC hclean hadj]
  have hcov' : ∀ x ∈ (f :: rest).zip
      (rfDailyList p rfS dr ((f :: rest).map (·.date))),
      ∃ q, rfAnnualAt rfS p x.1.date = Except.ok q := by
    intro x hx
    obtain ⟨a, b⟩ := x
    have ha : a ∈ f :: rest := (List.of_mem_zip hx).1
    refine hcov a.date ?_
    rw [hclean]
    exact List.mem_map_of_mem _ ha
  obtain ⟨rows, hrows⟩ := runDays_ok_of_covers p _ _ _ _ _ _ true
    { cash := p.initial_cash, totalTopup := 0, lastRoll := f.date,
      entryPrice := f.close, peakSingleTopup := 0 } hcov'
  rw [hrows]
  exact (metricsGate_cases rows).imp (fun h => ⟨rows, h⟩) id

lemma cleanRows_of_clean (pf : PriceFrame)
    (hcomplete : ∀ r ∈ pf.rows, rowComplete pf r = true)
    (hsorted : List.Pairwise rowDateLe pf.rows) :
    (cleanRows pf).map (·.date) = pf.rows.map (·.date) := by
  rw [cleanRows_dates]
  rw [show dropnaRows pf = pf.rows from List.filter_eq_self.mpr hcomplete]
  rw [show sortRows pf.rows = pf.rows from List.Sorted.insertionSort_eq hsorted]

lemma pfCrash_typeError :
    simulate_synthetic pfCrash paramsTop none (fun _ => 0) =
      Except.error SimError.typeErrorComplex := by
  norm_num [simulate_synthetic, cleanRows, sortRows, dropnaRows, rowComplete,
    List.insertionSort, List.orderedInsert, rowDateLe, Date.toDays,
    List.filter, Int.fdiv, rfDailyList, runDays, liqFill, stepDay, applyRoll,
    shouldRoll, qmax, rfAnnualAt, metricsGate, cagrRaises, syntheticCurve,
    buyHoldCurve, List.getLastD, pfCrash, paramsTop, dA1, dA2]

lemma pfCrashU_typeError :
    simulate_synthetic pfCrashU paramsTop none (fun _ => 0) =
      Except.error SimError.typeErrorComplex := by
  rw [simulate_congr pfCrashU pfCrash paramsTop none (fun _ => 0) rfl
    (by decide)]
  exact pfCrash_typeError

/-! ## C1: equity frozen after liquidation -/

/-- C1: in every successful run, once a row is liquidated every later row is
liquidated too and carries the identical synthetic equity, while its notional
and margin requirement are recomputed from that row's own price. -/
theorem C1_liquidation_freeze (pf : PriceFrame) (p : SimParams)
    (rfS : Option RateSeries) (dr : ℚ → ℚ) (rows : List ResultRow)
    (h : simulate_synthetic pf p rfS dr = Except.ok rows) :
    ∀ (i j : ℕ) (ri rj : ResultRow), i ≤ j → rows[i]? = some ri →
      rows[j]? = some rj → ri.liquidated = true →
      rj.liquidated = true ∧ rj.syntheticEquity = ri.syntheticEquity ∧
      rj.syntheticNotional =
        rj.spyClose * (p.contracts : ℚ) * (p.contract_multiplier : ℚ) ∧
      rj.marginReq =
        p.margin_pct * rj.spyClose * (p.contracts : ℚ) *
          (p.contract_multiplier : ℚ) := by
  cases hC : pf.hasClose with
  | false => rw [simulate_missingClose pf p rfS dr hC] at h; cases h
  | true =>
    cases hclean : cleanRows pf with
    | nil => rw [simulate_empty pf p rfS dr hC hclean] at h; cases h
    | cons f rest =>
      by_cases hadj : f.adj = 0
      · rw [simulate_zeroAdj pf p rfS dr f rest hC hclean hadj] at h; cases h
      · rw [simulate_eq_runDays pf p rfS dr f rest hC hclean hadj] at h
        exact runDays_frozen p _ _ _ _ _ _ true _ rows
          (metricsGate_ok_inv _ _ h)

/-- C1 witness: the liquidate-on-day-0 scenario; the theorem applied to rows
0 and 1 of its concrete output. -/
theorem C1_liquidation_freeze_witness :
    simulate_synthetic pfDemo paramsLiq none (fun _ => 0) =
      Except.ok
        [⟨dA1, 10, 0, 1000, 250, 0, 0, true, 0, 9/200⟩,
         ⟨dA2, 8, 0, 800, 200, 0, 0, true, 0, 9/200⟩,
         ⟨dA3, 12, 0, 1200, 300, 0, 0, true, 0, 9/200⟩] ∧
      ((⟨dA2, 8, 0, 800, 200, 0, 0, true, 0, 9/200⟩ : ResultRow).liquidated =
          true ∧
        (⟨dA2, 8, 0, 800, 200, 0, 0, true, 0, 9/200⟩ :
            ResultRow).syntheticEquity =
          (⟨dA1, 10, 0, 1000, 250, 0, 0, true, 0, 9/200⟩ :
            ResultRow).syntheticEquity ∧
        (⟨dA2, 8, 0, 800, 200, 0, 0, true, 0, 9/200⟩ :
            ResultRow).syntheticNotional =
          (⟨dA2, 8, 0, 800, 200, 0, 0, true, 0, 9/200⟩ : ResultRow).spyClose *
            (paramsLiq.contracts : ℚ) * (paramsLiq.contract_multiplier : ℚ) ∧
        (⟨dA2, 8, 0, 800, 200, 0, 0, true, 0, 9/200⟩ : ResultRow).marginReq =
          paramsLiq.margin_pct *
            (⟨dA2, 8, 0, 800, 200, 0, 0, true, 0, 9/200⟩ : ResultRow).spyClose *
            (paramsLiq.contracts : ℚ) * (paramsLiq.contract_multiplier : ℚ)) := by
  have hsim : simulate_synthetic pfDemo paramsLiq none (fun _ => 0) =
      Except.ok
        [⟨dA1, 10, 0, 1000, 250, 0, 0, true, 0, 9/200⟩,
         ⟨dA2, 8, 0, 800, 200, 0, 0, true, 0, 9/200⟩,
         ⟨dA3, 12, 0, 1200, 300, 0, 0, true, 0, 9/200⟩] := by
    norm_num [simulate_synthetic, cleanRows, sortRows, dropnaRows, rowComplete,
      List.insertionSort, List.orderedInsert, rowDateLe, Date.toDays,
      List.filter, Int.fdiv, rfDailyList, runDays, liqFill, stepDay, applyRoll,
      shouldRoll, qmax, rfAnnualAt, metricsGate, cagrRaises, syntheticCurve,
      buyHoldCurve, List.getLastD, pfDemo, paramsLiq, dA1, dA2, dA3]
  refine ⟨hsim, ?_⟩
  exact C1_liquidation_freeze pfDemo paramsLiq none (fun _ => 0) _ hsim 0 1 _ _
    (by omega) rfl rfl rfl

/-! ## C3: input validation -/

/-- C3 counterexample: parameters violating every stated validation rule at
once (non-positive contracts, cash and multiplier, margin percentage above 1,
non-positive roll interval, negative top-up cap) together with a
non-monotonic price series are accepted: `simulate_synthetic` completes and
returns rows instead of raising any error. -/
theorem C3_counterexample :
    paramsBad.contracts ≤ 0 ∧ paramsBad.initial_cash ≤ 0 ∧
    paramsBad.contract_multiplier ≤ 0 ∧ (1 : ℚ) < paramsBad.margin_pct ∧
    paramsBad.roll_months ≤ 0 ∧ paramsBad.max_total_topup = some (-1) ∧
    ¬ List.Pairwise rowDateLe pfMessy.rows ∧
    simulate_synthetic pfMessy paramsBad none (fun _ => 0) =
      Except.ok
        [⟨dA1, 10, 180, 60, 180, 0, 185, true, -5, 9/200⟩,
         ⟨dA2, 8, 180, 48, 144, 0, 185, true, -4, 9/200⟩] := by
  refine ⟨by decide, by norm_num [paramsBad], by decide, by norm_num [paramsBad],
    by decide, by norm_num [paramsBad], by decide, ?_⟩
  norm_num [simulate_synthetic, cleanRows, sortRows, dropnaRows, rowComplete,
    List.insertionSort, List.orderedInsert, rowDateLe, Date.toDays,
    List.filter, Int.fdiv, rfDailyList, runDays, liqFill, stepDay, applyRoll,
    shouldRoll, qmax, rfAnnualAt, metricsGate, cagrRaises, syntheticCurve,
    buyHoldCurve, List.getLastD, pfMessy, paramsBad, dA1, dA2, dA3]

/-- C3 (amended): `simulate_synthetic` validates only the presence of the
`Close` column, raising ValueError before any simulation; a price series
that is empty after cleaning fails with IndexError at first-date access, and
a zero first adjusted close fails with ZeroDivisionError at the buy & hold
share computation; beyond that no validation is performed — non-monotonic
dates are sorted rather than rejected and arbitrary (also non-positive or
out-of-range) parameter values run the whole day loop whenever the cleaned
series is nonempty, the first adjusted close is nonzero, and the rate lookup
covers every cleaned date; but even then the run is not guaranteed to
succeed: the metrics block computed after the loop can raise TypeError (the
run is not "rejected before any state mutation" — it can partially run and
then fail, as the concrete crash frame shows). -/
theorem C3_amended :
    (∀ (pf : PriceFrame) (p : SimParams) (rfS : Option RateSeries)
        (dr : ℚ → ℚ), pf.hasClose = false →
      simulate_synthetic pf p rfS dr =
        Except.error SimError.valueErrorMissingClose) ∧
    (∀ (pf : PriceFrame) (p : SimParams) (rfS : Option RateSeries)
        (dr : ℚ → ℚ), pf.hasClose = true → cleanRows pf = [] →
      simulate_synthetic pf p rfS dr =
        Except.error SimError.indexErrorEmpty) ∧
    (∀ (pf : PriceFrame) (p : SimParams) (rfS : Option RateSeries)
        (dr : ℚ → ℚ) (f : CleanRow) (rest : List CleanRow),
      pf.hasClose = true → cleanRows pf = f :: rest → f.adj = 0 →
      simulate_synthetic pf p rfS dr =
        Except.error SimError.zeroDivisionError) ∧
    (∀ (pf : PriceFrame) (p : SimParams) (rfS : Option RateSeries)
        (dr : ℚ → ℚ) (f : CleanRow) (rest : List CleanRow),
      pf.hasClose = true → cleanRows pf = f :: rest → f.adj ≠ 0 →
      (∀ d ∈ (cleanRows pf).map (·.date),
        ∃ q, rfAnnualAt rfS p d = Except.ok q) →
      (∃ rows, simulate_synthetic pf p rfS dr = Except.ok rows) ∨
        simulate_synthetic pf p rfS dr =
          Except.error SimError.typeErrorComplex) ∧
    simulate_synthetic pfCrash paramsTop none (fun _ => 0) =
      Except.error SimError.typeErrorComplex :=
  ⟨simulate_missingClose, simulate_empty, simulate_zeroAdj,
    simulate_completes, pfCrash_typeError⟩

/-- C3 witness: the amended statement applied at concrete inputs — a frame
without a `Close` column raises ValueError, an empty frame IndexError, a
zero first adjusted close ZeroDivisionError, and the invalid-parameter
messy frame of the counterexample still runs. -/
theorem C3_amended_witness :
    simulate_synthetic ⟨false, true, []⟩ {} none (fun _ => 0) =
      Except.error SimError.valueErrorMissingClose ∧
    simulate_synthetic ⟨true, true, []⟩ {} none (fun _ => 0) =
      Except.error SimError.indexErrorEmpty ∧
    simulate_synthetic pfZeroAdj {} none (fun _ => 0) =
      Except.error SimError.zeroDivisionError ∧
    ((∃ rows, simulate_synthetic pfMessy paramsBad none (fun _ => 0) =
        Except.ok rows) ∨
      simulate_synthetic pfMessy paramsBad none (fun _ => 0) =
        Except.error SimError.typeErrorComplex) := by
  refine ⟨C3_amended.1 _ {} none _ rfl,
    C3_amended.2.1 _ {} none _ rfl (by decide),
    C3_amended.2.2.1 pfZeroAdj {} none _ ⟨dA1, 10, 0⟩ [] rfl (by decide) rfl,
    C3_amended.2.2.2.1 pfMessy paramsBad none (fun _ => 0)
      ⟨dA1, 10, 10⟩ [⟨dA2, 8, 8⟩] rfl (by decide) (by norm_num)
      (fun d _ => ⟨paramsBad.rf_rate_annual, rfl⟩)⟩

/-! ## C4: one output row per input date -/

/-- C4 counterexample: a fully valid nonempty price series (Close column
present, every cell present, dates ascending) for which `simulate_synthetic`
returns no rows at all: the day loop completes, but the metrics block's CAGR
of the synthetic equity curve (start 300, end −600) raises TypeError before
any result is returned — so a row per input date is not produced for every
valid input. -/
theorem C4_counterexample :
    pfCrash.hasClose = true ∧
    (∀ r ∈ pfCrash.rows, rowComplete pfCrash r = true) ∧
    List.Pairwise rowDateLe pfCrash.rows ∧
    pfCrash.rows ≠ [] ∧
    simulate_synthetic pfCrash paramsTop none (fun _ => 0) =
      Except.error SimError.typeErrorComplex :=
  ⟨rfl, by decide, by decide, by decide, pfCrash_typeError⟩

/-- C4 (amended): for every valid price series (complete, date-ascending,
nonempty, nonzero first adjusted close, rate lookup covering every date),
whenever the run returns rows it returns exactly one row per input date in
the same ascending order — covering the liquidation-truncated path, which
fills the remaining dates — and the run either returns rows or raises
TypeError in the post-loop metrics block. -/
theorem C4_amended (pf : PriceFrame) (p : SimParams)
    (rfS : Option RateSeries) (dr : ℚ → ℚ)
    (hC : pf.hasClose = true)
    (hcomplete : ∀ r ∈ pf.rows, rowComplete pf r = true)
    (hsorted : List.Pairwise rowDateLe pf.rows)
    (hne : pf.rows ≠ [])
    (hadj : ∀ f rest, cleanRows pf = f :: rest → f.adj ≠ 0)
    (hcov : ∀ d ∈ (cleanRows pf).map (·.date),
      ∃ q, rfAnnualAt rfS p d = Except.ok q) :
    (∀ rows, simulate_synthetic pf p rfS dr = Except.ok rows →
      rows.map (·.date) = pf.rows.map (·.date) ∧
      rows.length = pf.rows.length ∧
      List.Pairwise (fun a b : Date => a.toDays ≤ b.toDays)
        (rows.map (·.date))) ∧
    ((∃ rows, simulate_synthetic pf p rfS dr = Except.ok rows) ∨
      simulate_synthetic pf p rfS dr =
        Except.error SimError.typeErrorComplex) := by
  have hdateseq : (cleanRows pf).map (·.date) = pf.rows.map (·.date) :=
    cleanRows_of_clean pf hcomplete hsorted
  have hnec : cleanRows pf ≠ [] := by
    intro hnil
    rw [hnil] at hdateseq
    cases hrows : pf.rows with
    | nil => exact hne hrows
    | cons a l => rw [hrows] at hdateseq; cases hdateseq
  cases hclean : cleanRows pf with
  | nil => exact absurd hclean hnec
  | cons f rest =>
    constructor
    · intro rows hrows
      obtain ⟨hdates, -⟩ := simulate_rows_spec pf p rfS dr f rest hC hclean
        (hadj f rest hclean) rows hrows
      refine ⟨?_, ?_, ?_⟩
      · rw [hdates, hdateseq]
      · have := congrArg List.length (hdates.trans hdateseq)
        simpa using this
      · rw [hdates]
        exact cleanRows_sorted pf
    · exact simulate_completes pf p rfS dr f rest hC hclean
        (hadj f rest hclean) hcov

/-- C4 witness: the amended statement applied to the clean three-day demo
frame with default parameters and no rate series. -/
theorem C4_amended_witness :
    (∀ rows, simulate_synthetic pfDemo {} none (fun _ => 0) =
        Except.ok rows →
      rows.map (·.date) = pfDemo.rows.map (·.date) ∧
      rows.length = pfDemo.rows.length ∧
      List.Pairwise (fun a b : Date => a.toDays ≤ b.toDays)
        (rows.map (·.date))) ∧
    ((∃ rows, simulate_synthetic pfDemo {} none (fun _ => 0) =
        Except.ok rows) ∨
      simulate_synthetic pfDemo {} none (fun _ => 0) =
        Except.error SimError.typeErrorComplex) := by
  refine C4_amended pfDemo {} none (fun _ => 0) rfl (by decide)
    (by decide) (by decide) ?_ (fun d _ => ⟨(9 : ℚ)/200, rfl⟩)
  intro f rest h
  rw [show cleanRows pfDemo = [⟨dA1, 10, 10⟩, ⟨dA2, 8, 8⟩, ⟨dA3, 12, 12⟩]
    from by decide] at h
  cases h
  norm_num

/-! ## C10: dropna and sort before simulating -/

/-- C10 counterexample: the reversed (unsorted) crash frame is indeed sorted
and simulated in date order, yet it is not "accepted without error": the run
raises TypeError in the post-loop metrics block, so an unsorted price series
is not always accepted without error. -/
theorem C10_counterexample :
    ¬ List.Pairwise rowDateLe pfCrashU.rows ∧
    simulate_synthetic pfCrashU paramsTop none (fun _ => 0) =
      Except.error SimError.typeErrorComplex :=
  ⟨by decide, pfCrashU_typeError⟩

/-- C10 (amended): `simulate_synthetic` drops every input row containing a
NaN and sorts the survivors by date before simulating: no sortedness
hypothesis appears below, whenever rows are returned they follow the sorted
order of the NaN-free rows (a permutation of `dropnaRows`) and number
exactly the NaN-free rows — hence possibly fewer than the raw input — and
the run either returns rows or raises TypeError in the post-loop metrics
block (so an unsorted series is not always accepted without error). -/
theorem C10_amended (pf : PriceFrame) (p : SimParams)
    (rfS : Option RateSeries) (dr : ℚ → ℚ) (f : CleanRow)
    (rest : List CleanRow) (hC : pf.hasClose = true)
    (hclean : cleanRows pf = f :: rest) (hadj : f.adj ≠ 0)
    (hcov : ∀ d ∈ (cleanRows pf).map (·.date),
      ∃ q, rfAnnualAt rfS p d = Except.ok q) :
    (∀ rows, simulate_synthetic pf p rfS dr = Except.ok rows →
      rows.map (·.date) = (sortRows (dropnaRows pf)).map (·.date) ∧
      List.Pairwise (fun a b : Date => a.toDays ≤ b.toDays)
        (rows.map (·.date)) ∧
      rows.length = (dropnaRows pf).length) ∧
    List.Perm (sortRows (dropnaRows pf)) (dropnaRows pf) ∧
    (dropnaRows pf).length ≤ pf.rows.length ∧
    ((∃ rows, simulate_synthetic pf p rfS dr = Except.ok rows) ∨
      simulate_synthetic pf p rfS dr =
        Except.error SimError.typeErrorComplex) := by
  have hperm : List.Perm (sortRows (dropnaRows pf)) (dropnaRows pf) :=
    List.perm_insertionSort rowDateLe (dropnaRows pf)
  refine ⟨?_, hperm, List.length_filter_le _ _,
    simulate_completes pf p rfS dr f rest hC hclean hadj hcov⟩
  intro rows hrows
  obtain ⟨hdates, -⟩ := simulate_rows_spec pf p rfS dr f rest hC hclean hadj
    rows hrows
  refine ⟨?_, ?_, ?_⟩
  · rw [hdates, cleanRows_dates]
  · rw [hdates]
    exact cleanRows_sorted pf
  · have h1 := congrArg List.length (hdates.trans (cleanRows_dates pf))
    simp only [List.length_map] at h1
    rw [h1, hperm.length_eq]

/-- C10 witness: the unsorted frame with one NaN row runs and produces two
rows out of three raw input rows, in sorted date order. -/
theorem C10_amended_witness :
    ((∀ rows, simulate_synthetic pfMessy {} none (fun _ => 0) =
          Except.ok rows →
        rows.map (·.date) = (sortRows (dropnaRows pfMessy)).map (·.date) ∧
        List.Pairwise (fun a b : Date => a.toDays ≤ b.toDays)
          (rows.map (·.date)) ∧
        rows.length = (dropnaRows pfMessy).length) ∧
      List.Perm (sortRows (dropnaRows pfMessy)) (dropnaRows pfMessy) ∧
      (dropnaRows pfMessy).length ≤ pfMessy.rows.length ∧
      ((∃ rows, simulate_synthetic pfMessy {} none (fun _ => 0) =
          Except.ok rows) ∨
        simulate_synthetic pfMessy {} none (fun _ => 0) =
          Except.error SimError.typeErrorComplex)) ∧
    (dropnaRows pfMessy).length = 2 ∧ pfMessy.rows.length = 3 ∧
    ¬ List.Pairwise rowDateLe pfMessy.rows :=
  ⟨C10_amended pfMessy {} none (fun _ => 0) ⟨dA1, 10, 10⟩
      [⟨dA2, 8, 8⟩] rfl (by decide) (by norm_num)
      (fun d _ => ⟨(9 : ℚ)/200, rfl⟩), by decide, by decide, by decide⟩

/-! ## C8: rate series coverage -/

lemma simulate_keyError_of_uncovered (pf : PriceFrame) (p : SimParams)
    (s : RateSeries) (dr : ℚ → ℚ) (f : CleanRow) (rest : List CleanRow)
    (hC : pf.hasClose = true) (hclean : cleanRows pf = f :: rest)
    (hadj : f.adj ≠ 0)
    (hun : ∃ d ∈ (cleanRows pf).map (·.date), rateLookup s d = none) :
    simulate_synthetic pf p (some s) dr = Except.error SimError.keyError := by
  rw [simulate_eq_runDays pf p (some s) dr f rest hC hclean hadj]
  have hrd : runDays p (p.contracts : ℚ) (p.contract_multiplier : ℚ)
      (dr p.dividend_yield_drag_annual) (p.initial_cash / f.adj)
      (rfAnnualAt (some s) p) true
      { cash := p.initial_cash, totalTopup := 0, lastRoll := f.date,
        entryPrice := f.close, peakSingleTopup := 0 }
      ((f :: rest).zip
        (rfDailyList p (some s) dr ((f :: rest).map (·.date)))) =
      Except.error SimError.keyError := by
    apply runDays_keyError
    obtain ⟨d, hd, hnone⟩ := hun
    rw [hclean] at hd
    obtain ⟨crow, hcrow, rfl⟩ := List.mem_map.mp hd
    have hlen : (f :: rest).length ≤
        (rfDailyList p (some s) dr ((f :: rest).map (·.date))).length := by
      rw [rfDailyList_length, List.length_map]
    have hmapfst : ((f :: rest).zip
        (rfDailyList p (some s) dr ((f :: rest).map (·.date)))).map Prod.fst =
          f :: rest :=
      List.map_fst_zip _ _ hlen
    have hcrow2 : crow ∈ ((f :: rest).zip
        (rfDailyList p (some s) dr ((f :: rest).map (·.date)))).map
          Prod.fst := by
      rw [hmapfst]
      exact hcrow
    obtain ⟨pair, hpair, hfst⟩ := List.mem_map.mp hcrow2
    exact ⟨pair, hpair, by rw [hfst]; exact hnone⟩
  rw [hrd]
  exact rfl

/-- C8 counterexample: a duplicate-free rate series holding only the first
demo date is supplied; `dA2` is a cleaned price date absent from it, and
`simulate_synthetic` raises KeyError (from the raw
`rf_annual_series.loc[dt]` lookup recorded in each output row) instead of
completing without error. -/
theorem C8_counterexample :
    (ratePartial.map Prod.fst).Nodup ∧
    rateLookup ratePartial dA2 = none ∧
    dA2 ∈ (cleanRows pfDemo).map (·.date) ∧
    simulate_synthetic pfDemo {} (some ratePartial) (fun _ => 0) =
      Except.error SimError.keyError := by
  refine ⟨by decide, by decide, by decide, ?_⟩
  exact simulate_keyError_of_uncovered pfDemo {} ratePartial (fun _ => 0)
    ⟨dA1, 10, 10⟩ [⟨dA2, 8, 8⟩, ⟨dA3, 12, 12⟩] rfl (by decide) (by norm_num)
    ⟨dA2, by decide, by decide⟩

/-- C8 (amended): for a supplied rate series with duplicate-free dates
(pandas raises on reindexing a duplicate-labelled series, so only that
domain is modelled), interest accrual uses the reindexed forward/backward-
filled series, but each output row records the raw series value at its own
date; consequently a series missing any cleaned price date makes
`simulate_synthetic` raise KeyError instead of completing, while a series
covering every cleaned date lets the day loop run — each returned row then
records the series' value at its date — though the run can still end in the
metrics block's TypeError rather than returning rows. -/
theorem C8_amended :
    (∀ (pf : PriceFrame) (p : SimParams) (s : RateSeries) (dr : ℚ → ℚ)
        (f : CleanRow) (rest : List CleanRow),
      (s.map Prod.fst).Nodup →
      pf.hasClose = true → cleanRows pf = f :: rest → f.adj ≠ 0 →
      (∃ d ∈ (cleanRows pf).map (·.date), rateLookup s d = none) →
      simulate_synthetic pf p (some s) dr =
        Except.error SimError.keyError) ∧
    (∀ (pf : PriceFrame) (p : SimParams) (s : RateSeries) (dr : ℚ → ℚ)
        (f : CleanRow) (rest : List CleanRow),
      (s.map Prod.fst).Nodup →
      pf.hasClose = true → cleanRows pf = f :: rest → f.adj ≠ 0 →
      (∀ d ∈ (cleanRows pf).map (·.date), ∃ q, rateLookup s d = some q) →
      (∀ rows, simulate_synthetic pf p (some s) dr = Except.ok rows →
        ∀ r ∈ rows, rateLookup s r.date = some r.rfAnnual) ∧
      ((∃ rows, simulate_synthetic pf p (some s) dr = Except.ok rows) ∨
        simulate_synthetic pf p (some s) dr =
          Except.error SimError.typeErrorComplex)) := by
  constructor
  · intro pf p s dr f rest _ hC hclean hadj hun
    exact simulate_keyError_of_uncovered pf p s dr f rest hC hclean hadj hun
  · intro pf p s dr f rest _ hC hclean hadj hlook
    have hcov : ∀ d ∈ (cleanRows pf).map (·.date),
        ∃ q, rfAnnualAt (some s) p d = Except.ok q := by
      intro d hd
      obtain ⟨q, hq⟩ := hlook d hd
      exact ⟨q, by simp [rfAnnualAt, hq]⟩
    constructor
    · intro rows hrows r hr
      obtain ⟨-, hrf⟩ := simulate_rows_spec pf p (some s) dr f rest hC hclean
        hadj rows hrows
      have hval := hrf r hr
      cases hl : rateLookup s r.date with
      | none =>
        rw [show rfAnnualAt (some s) p r.date =
          Except.error SimError.keyError from by simp [rfAnnualAt, hl]] at hval
        cases hval
      | some v =>
        rw [show rfAnnualAt (some s) p r.date = Except.ok v from
          by simp [rfAnnualAt, hl]] at hval
        cases hval
        rfl
    · exact simulate_completes pf p (some s) dr f rest hC hclean hadj hcov

/-- C8 witness: the amended statement's covering branch applied to the demo
frame with the duplicate-free, fully covering rate series. -/
theorem C8_amended_witness :
    (∀ rows, simulate_synthetic pfDemo {} (some rateFull) (fun _ => 0) =
        Except.ok rows →
      ∀ r ∈ rows, rateLookup rateFull r.date = some r.rfAnnual) ∧
    ((∃ rows, simulate_synthetic pfDemo {} (some rateFull) (fun _ => 0) =
        Except.ok rows) ∨
      simulate_synthetic pfDemo {} (some rateFull) (fun _ => 0) =
        Except.error SimError.typeErrorComplex) := by
  refine C8_amended.2 pfDemo {} rateFull (fun _ => 0) ⟨dA1, 10, 10⟩
    [⟨dA2, 8, 8⟩, ⟨dA3, 12, 12⟩] (by decide) rfl (by decide) (by norm_num) ?_
  intro d hd
  rw [show (cleanRows pfDemo).map (·.date) = [dA1, dA2, dA3]
    from by decide] at hd
  simp only [List.mem_cons, List.not_mem_nil, or_false] at hd
  rcases hd with rfl | rfl | rfl
  · exact ⟨1, by decide⟩
  · exact ⟨2, by decide⟩
  · exact ⟨3, by decide⟩

end EquityDash
